import Mathlib

/-!
Shallow embedding of the bassosimone/risc16 core: the RiSC-16 virtual
machine (pkg/vm), the streaming lexer, parser and two-pass assembler
(pkg/asm), and the disassembler.  Machine words are modelled as `Nat`
values reduced modulo 2^16 exactly where the Go code relies on `uint16`
wrap-around.  Strings are modelled as `List Char`.
-/

namespace RiSC16

/-- 2^16, the modulus of all 16-bit machine arithmetic. -/
def wordMod : Nat := 65536

/-! ## VM core (pkg/vm, second half of lexer.go source bundle) -/

/-- Opcodes, from the `Opcode...` iota constants. -/
def OpcodeADD : Nat := 0
def OpcodeADDI : Nat := 1
def OpcodeNAND : Nat := 2
def OpcodeLUI : Nat := 3
def OpcodeSW : Nat := 4
def OpcodeLW : Nat := 5
def OpcodeBEQ : Nat := 6
def OpcodeJALR : Nat := 7

/-- `ExceptionTypeEXCEPTION`: the Go const block reads
`ExceptionTypeNONE = iota << 4` followed by six bare names, so the
expression `iota << 4` repeats and the seventh entry is `7 << 4 = 112`. -/
def ExceptionTypeEXCEPTION : Nat := 112

/-- `ExceptionValueHALT`: second entry of a plain iota block. -/
def ExceptionValueHALT : Nat := 1

/-- `SignExtend7`: if bit 6 is set, OR in `0b1111_1111_1000_0000`. -/
def SignExtend7 (v : Nat) : Nat :=
  if v &&& 64 ≠ 0 then v ||| 65408 else v

/-- Machine state of the VM.  `GPR` and `M` are total functions; the Go
arrays are their restrictions to indices below 8 and 65536. -/
structure VM where
  CI : Nat
  GPR : Nat → Nat
  M : Nat → Nat
  PC : Nat

/-- Errors returned by `VM.Execute` (`ErrHalted`, `ErrException`; the
exception carries the `imm7` value interpolated into the message). -/
inductive VMErr
  | halted
  | exception (id : Nat)
deriving DecidableEq

/-- `VM.Fetch`: copy `M[PC]` into CI, then increment PC with wrap. -/
def VM.Fetch (vm : VM) : VM :=
  { vm with CI := vm.M (vm.PC % wordMod), PC := (vm.PC + 1) % wordMod }

/-- The body of `VM.Execute` before the deferred cleanup runs: decode the
fields of CI and run the opcode switch. -/
def VM.ExecuteCore (vm : VM) : VM × Option VMErr :=
  let opcode := vm.CI >>> 13
  let ra := (vm.CI >>> 10) &&& 7
  let rb := (vm.CI >>> 7) &&& 7
  let rc := vm.CI &&& 7
  let imm7 := SignExtend7 (vm.CI &&& 127)
  let imm10 := vm.CI &&& 1023
  if opcode = OpcodeADD then
    ({ vm with GPR := Function.update vm.GPR ra ((vm.GPR rb + vm.GPR rc) % wordMod) }, none)
  else if opcode = OpcodeADDI then
    ({ vm with GPR := Function.update vm.GPR ra ((vm.GPR rb + imm7) % wordMod) }, none)
  else if opcode = OpcodeNAND then
    ({ vm with GPR := Function.update vm.GPR ra ((vm.GPR rb &&& vm.GPR rc) ^^^ 65535) }, none)
  else if opcode = OpcodeLUI then
    ({ vm with GPR := Function.update vm.GPR ra (imm10 <<< 6) }, none)
  else if opcode = OpcodeSW then
    ({ vm with M := Function.update vm.M ((vm.GPR rb + imm7) % wordMod) (vm.GPR ra) }, none)
  else if opcode = OpcodeLW then
    ({ vm with GPR := Function.update vm.GPR ra (vm.M ((vm.GPR rb + imm7) % wordMod)) }, none)
  else if opcode = OpcodeBEQ then
    (if vm.GPR ra = vm.GPR rb then { vm with PC := (vm.PC + imm7) % wordMod } else vm, none)
  else if opcode = OpcodeJALR then
    if vm.GPR ra = 0 ∧ vm.GPR rb = 0 then
      if imm7 &&& 127 = ExceptionTypeEXCEPTION ||| ExceptionValueHALT then
        (vm, some .halted)
      else
        (vm, some (.exception imm7))
    else
      let g := Function.update vm.GPR ra vm.PC
      ({ vm with GPR := g, PC := g rb }, none)
  else
    (vm, none)

/-- `VM.Execute`: run the opcode switch; the deferred function then forces
`GPR[0] = 0` and `CI = 0` on every path, including error returns. -/
def VM.Execute (vm : VM) : VM × Option VMErr :=
  let r := vm.ExecuteCore
  ({ r.1 with GPR := Function.update r.1.GPR 0 0, CI := 0 }, r.2)

/-- The VM driver's load loop: hex words are stored starting at address 0
into a zeroed machine. -/
def loadVM (ws : List Nat) : VM :=
  { CI := 0, GPR := fun _ => 0, M := fun a => ws.getD a 0, PC := 0 }

/-- One iteration of the VM driver's run loop: Fetch then Execute. -/
def VM.Step (vm : VM) : VM × Option VMErr :=
  vm.Fetch.Execute

/-! ## Lexer (pkg/asm/lexer.go)

The Go lexer matches, in priority order, the anchored regexps
`#[^\n]*` (comment), `[a-zA-Z_][a-zA-Z0-9_]*:` (label),
`[.a-zA-Z_][a-zA-Z0-9_]*` (name), `(0|-?[1-9][0-9]*)` (number), `,`,
`[ \t]+` (blank), with Go's leftmost-first (Perl-like) semantics; in
particular the number rule's first alternative makes a leading `0`
match as the single character `0`.  The first characters of the six
rules are disjoint except label/name, where label wins exactly when a
colon follows the maximal identifier run (the run cannot contain a
colon, so backtracking cannot create other label matches). -/

/-- A lexed token.  End of input (a read from the closed Go channel,
which yields the zero `LexerToken` whose `Type` is `LexerEOF` and whose
`Lineno` is 0) is represented by the end of the token list; `eof` is the
zero token that such a read produces. -/
inductive LexerToken
  | label (v : List Char) (lineno : Nat)
  | nameOrNumber (v : List Char) (lineno : Nat)
  | comma (lineno : Nat)
  | eol (lineno : Nat)
  | invalid (lineno : Nat)
  | eof (lineno : Nat)
deriving DecidableEq

/-- The line number carried by a token. -/
def LexerToken.lineno : LexerToken → Nat
  | .label _ n => n
  | .nameOrNumber _ n => n
  | .comma n => n
  | .eol n => n
  | .invalid n => n
  | .eof n => n

/-- `[a-zA-Z_]`, the first character of the label and name rules
(a leading `.` is handled separately for the name rule). -/
def isIdentStart (c : Char) : Bool := c.isAlpha || c = '_'

/-- `[a-zA-Z0-9_]`, the continuation class of labels and names. -/
def isIdentCont (c : Char) : Bool := c.isAlphanum || c = '_'

/-- One round of `LexLine`'s inner rule loop: try the rules in priority
order against the remainder.  Returns the emitted token (if the winning
rule has `Emit` set) and the remainder, or `none` when no rule matches. -/
def lexStep (text : List Char) (lineno : Nat) :
    Option (Option LexerToken × List Char) :=
  match text with
  | [] => none
  | c :: rest =>
    if c = '#' then
      -- comment: consumes to end of line, not emitted
      some (none, [])
    else if isIdentStart c then
      -- label rule, then name rule on the same identifier run
      let run := rest.takeWhile isIdentCont
      let rest2 := rest.dropWhile isIdentCont
      match rest2 with
      | ':' :: rest3 => some (some (.label (c :: (run ++ [':'])) lineno), rest3)
      | _ => some (some (.nameOrNumber (c :: run) lineno), rest2)
    else if c = '.' then
      -- name rule with a leading dot (directives)
      let run := rest.takeWhile isIdentCont
      some (some (.nameOrNumber (c :: run) lineno), rest.dropWhile isIdentCont)
    else if c = '0' then
      -- number rule, first alternative: a lone zero
      some (some (.nameOrNumber ['0'] lineno), rest)
    else if c.isDigit then
      -- number rule, second alternative, no sign: [1-9][0-9]*
      let run := rest.takeWhile Char.isDigit
      some (some (.nameOrNumber (c :: run) lineno), rest.dropWhile Char.isDigit)
    else if c = '-' then
      -- number rule, second alternative with sign: -[1-9][0-9]*
      match rest with
      | d :: rest2 =>
        if d.isDigit && d ≠ '0' then
          let run := rest2.takeWhile Char.isDigit
          some (some (.nameOrNumber ('-' :: d :: run) lineno), rest2.dropWhile Char.isDigit)
        else none
      | [] => none
    else if c = ',' then
      some (some (.comma lineno), rest)
    else if c = ' ' || c = '\t' then
      -- blank: consumed, not emitted
      some (none, rest.dropWhile (fun x => x = ' ' || x = '\t'))
    else none

/-- `LexLine`'s loop, with fuel for structural recursion; every matching
rule consumes at least one character, so `text.length + 1` fuel is enough. -/
def lexLineAux (fuel : Nat) (text : List Char) (lineno : Nat) : List LexerToken :=
  match fuel with
  | 0 => []
  | fuel + 1 =>
    match text with
    | [] => [.eol lineno]
    | _ =>
      match lexStep text lineno with
      | some (some t, rest) => t :: lexLineAux fuel rest lineno
      | some (none, rest) => lexLineAux fuel rest lineno
      | none => [.invalid lineno, .eol lineno]

/-- `LexLine`: lex a single line (without its newline) and emit an EOL. -/
def lexLine (text : List Char) (lineno : Nat) : List LexerToken :=
  lexLineAux (text.length + 1) text lineno

/-- `bufio.Scanner` line splitting: lines are terminated by a newline,
a final newline is optional, and empty input yields no lines. -/
def splitLinesAux (fuel : Nat) (s : List Char) : List (List Char) :=
  match fuel with
  | 0 => []
  | fuel + 1 =>
    match s with
    | [] => []
    | _ =>
      let line := s.takeWhile (fun c => c ≠ '\n')
      match s.dropWhile (fun c => c ≠ '\n') with
      | [] => [line]
      | _ :: rest => line :: splitLinesAux fuel rest

/-- Split input into scanner lines. -/
def splitLines (s : List Char) : List (List Char) :=
  splitLinesAux (s.length + 1) s

/-- `LexAsync`'s loop body: lex each scanner line, numbering from 1. -/
def lexLinesFrom (lines : List (List Char)) (lineno : Nat) : List LexerToken :=
  match lines with
  | [] => []
  | l :: ls => lexLine l lineno ++ lexLinesFrom ls (lineno + 1)

/-- `LexAsync`: the full token stream of a source text. -/
def lexProgram (s : List Char) : List LexerToken :=
  lexLinesFrom (splitLines s) 1

/-! ## Parser (pkg/asm/parser.go, first draft in the bundle, the one whose
`Instruction` values carry line numbers and whose `Encode` takes a pc) -/

/-- The error taxonomy of package asm.  Errors carry the line number (or
label name) that the Go code interpolates into the wrapped message. -/
inductive AsmErr
  | expectedNameOrNumber (lineno : Nat)
  | unknownInstruction (lineno : Nat)
  | expectedEOL (lineno : Nat)
  | invalidRegisterName (v : List Char) (lineno : Nat)
  | outOfRangeData
  | cannotEncodeMissingLabel (name : List Char)
  | cannotEncodeErrInstr
  | tooManyInstructions
deriving DecidableEq

/-- Intermediate instructions (`Instruction` interface with one struct per
variant).  `err` mirrors `InstructionErr`, whose `Lineno` field is left at
its zero value by `NewParseError`. -/
inductive Instr
  | err (e : AsmErr) (lineno : Nat)
  | add (lineno : Nat) (label : Option (List Char)) (ra rb rc : Nat)
  | addi (lineno : Nat) (label : Option (List Char)) (ra rb : Nat) (imm : List Char)
  | nand (lineno : Nat) (label : Option (List Char)) (ra rb rc : Nat)
  | lui (lineno : Nat) (label : Option (List Char)) (ra : Nat) (imm : List Char)
  | sw (lineno : Nat) (label : Option (List Char)) (ra rb : Nat) (imm : List Char)
  | lw (lineno : Nat) (label : Option (List Char)) (ra rb : Nat) (imm : List Char)
  | beq (lineno : Nat) (label : Option (List Char)) (ra rb : Nat) (imm : List Char)
  | jalr (lineno : Nat) (label : Option (List Char)) (ra rb : Nat) (imm : Nat)
  | lli (lineno : Nat) (label : Option (List Char)) (ra : Nat) (imm : List Char)
  | data (lineno : Nat) (label : Option (List Char)) (value : Nat)
deriving DecidableEq

/-- `Instruction.Err`, reduced to whether the instruction is the error
variant, together with the wrapped error. -/
def Instr.errOf : Instr → Option AsmErr
  | .err e _ => some e
  | _ => none

/-- `Instruction.Label`. -/
def Instr.labelOf : Instr → Option (List Char)
  | .err _ _ => none
  | .add _ l _ _ _ => l
  | .addi _ l _ _ _ => l
  | .nand _ l _ _ _ => l
  | .lui _ l _ _ => l
  | .sw _ l _ _ _ => l
  | .lw _ l _ _ _ => l
  | .beq _ l _ _ _ => l
  | .jalr _ l _ _ _ => l
  | .lli _ l _ _ => l
  | .data _ l _ => l

/-- `Instruction.Line`. -/
def Instr.lineOf : Instr → Nat
  | .err _ n => n
  | .add n _ _ _ _ => n
  | .addi n _ _ _ _ => n
  | .nand n _ _ _ _ => n
  | .lui n _ _ _ => n
  | .sw n _ _ _ _ => n
  | .lw n _ _ _ _ => n
  | .beq n _ _ _ _ => n
  | .jalr n _ _ _ _ => n
  | .lli n _ _ _ => n
  | .data n _ _ => n

/-- A read from the token channel: past the end of the list the closed
channel yields the zero token (`eof`, line 0). -/
def nextTok : List LexerToken → LexerToken × List LexerToken
  | [] => (.eof 0, [])
  | t :: ts => (t, ts)

/-- `strings.TrimPrefix(v, "r")`. -/
def goTrimPrefixR : List Char → List Char
  | 'r' :: rest => rest
  | v => v

/-- `strings.TrimSuffix(v, ":")`. -/
def goTrimSuffixColon (v : List Char) : List Char :=
  if v.getLast? = some ':' then v.dropLast else v

/-- The switch on the trimmed register text: the eight cases
`"0"` … `"7"` (each converted by `strconv.Atoi`), default is an error. -/
def regFromText (v : List Char) : Option Nat :=
  let t := goTrimPrefixR v
  if t = ['0'] then some 0
  else if t = ['1'] then some 1
  else if t = ['2'] then some 2
  else if t = ['3'] then some 3
  else if t = ['4'] then some 4
  else if t = ['5'] then some 5
  else if t = ['6'] then some 6
  else if t = ['7'] then some 7
  else none

/-- `MaybeSkipCommaThenParseRegister`. -/
def MaybeSkipCommaThenParseRegister (toks : List LexerToken) :
    Except AsmErr (Nat × List LexerToken) :=
  let (t, rest) := nextTok toks
  match t with
  | .nameOrNumber v ln =>
    match regFromText v with
    | some n => .ok (n, rest)
    | none => .error (.invalidRegisterName v ln)
  | .comma _ =>
    let (t2, rest2) := nextTok rest
    match t2 with
    | .nameOrNumber v ln =>
      match regFromText v with
      | some n => .ok (n, rest2)
      | none => .error (.invalidRegisterName v ln)
    | _ => .error (.expectedNameOrNumber t2.lineno)
  | _ => .error (.expectedNameOrNumber t.lineno)

/-- `MaybeSkipCommaThenParseImmediate`: the raw token text is kept,
numeric parsing is deferred to the encoder. -/
def MaybeSkipCommaThenParseImmediate (toks : List LexerToken) :
    Except AsmErr (List Char × List LexerToken) :=
  let (t, rest) := nextTok toks
  match t with
  | .nameOrNumber v _ => .ok (v, rest)
  | .comma _ =>
    let (t2, rest2) := nextTok rest
    match t2 with
    | .nameOrNumber v _ => .ok (v, rest2)
    | _ => .error (.expectedNameOrNumber t2.lineno)
  | _ => .error (.expectedNameOrNumber t.lineno)

/-- `ParseEOL`. -/
def ParseEOL (toks : List LexerToken) : Except AsmErr (List LexerToken) :=
  let (t, rest) := nextTok toks
  match t with
  | .eol _ => .ok rest
  | _ => .error (.expectedEOL t.lineno)

/-! ### strconv

`strconv.ParseInt(s, 0, bitSize)` / `ParseUint(s, 0, bitSize)` with
automatic base detection.  Digit-group underscores (which base 0 would
also accept) are not modelled: every token this lexer can produce that
contains an underscore starts with a letter, a dot or an underscore, so
both Go and this model reject it at the first character. -/

/-- The numeric value of a digit character in bases up to 16. -/
def digitVal (c : Char) : Option Nat :=
  if '0' ≤ c ∧ c ≤ '9' then some (c.toNat - 48)
  else if 'a' ≤ c ∧ c ≤ 'f' then some (c.toNat - 87)
  else if 'A' ≤ c ∧ c ≤ 'F' then some (c.toNat - 55)
  else none

/-- Accumulate digits in the given base; any non-digit is an error. -/
def parseDigitsAux (base : Nat) (acc : Nat) : List Char → Option Nat
  | [] => some acc
  | c :: rest =>
    match digitVal c with
    | some d => if d < base then parseDigitsAux base (acc * base + d) rest else none
    | none => none

/-- A non-empty digit string in the given base. -/
def parseDigits (base : Nat) (s : List Char) : Option Nat :=
  match s with
  | [] => none
  | _ => parseDigitsAux base 0 s

/-- Base detection for base argument 0: `0x`/`0X` hex, `0b`/`0B` binary,
`0o`/`0O` octal, a leading `0` octal (a lone `0` is zero), else decimal. -/
def parseGoUintBase0 : List Char → Option Nat
  | [] => none
  | '0' :: 'x' :: ds => parseDigits 16 ds
  | '0' :: 'X' :: ds => parseDigits 16 ds
  | '0' :: 'b' :: ds => parseDigits 2 ds
  | '0' :: 'B' :: ds => parseDigits 2 ds
  | '0' :: 'o' :: ds => parseDigits 8 ds
  | '0' :: 'O' :: ds => parseDigits 8 ds
  | '0' :: ds => if ds = [] then some 0 else parseDigits 8 ds
  | ds => parseDigits 10 ds

/-- `strconv.ParseInt(s, 0, 64)` sign handling. -/
def parseGoIntCore : List Char → Option Int
  | '-' :: rest => (parseGoUintBase0 rest).map (fun n => -(n : Int))
  | '+' :: rest => (parseGoUintBase0 rest).map (fun n => (n : Int))
  | s => (parseGoUintBase0 s).map (fun n => (n : Int))

/-- `strconv.ParseInt(s, 0, bitSize)`: a range error is an error like any
other (every caller only tests `err != nil`). -/
def parseGoInt (s : List Char) (bitSize : Nat) : Option Int :=
  match parseGoIntCore s with
  | some v =>
    if -(2 ^ (bitSize - 1) : Int) ≤ v ∧ v ≤ 2 ^ (bitSize - 1) - 1 then some v else none
  | none => none

/-- `strconv.ParseUint(s, 0, bitSize)`: no sign is permitted. -/
def parseGoUint (s : List Char) (bitSize : Nat) : Option Nat :=
  match parseGoUintBase0 s with
  | some n => if n ≤ 2 ^ bitSize - 1 then some n else none
  | none => none

/-- Go's `uint16(v)` conversion of an `int64`: two's-complement
truncation, i.e. the value modulo 2^16. -/
def toU16 (v : Int) : Nat := (v % 65536).toNat

/-! ### Instruction-specific Parse functions

Each returns the emitted instruction slice and the unconsumed tokens;
`NewParseError` wraps the error in an `InstructionErr` whose `Lineno`
field stays at its zero value. -/

/-- `NewParseError`. -/
def NewParseError (e : AsmErr) : List Instr := [.err e 0]

/-- `ParseADD`. -/
def ParseADD (toks : List LexerToken) (label : Option (List Char)) (lineno : Nat) :
    List Instr × List LexerToken :=
  match MaybeSkipCommaThenParseRegister toks with
  | .error e => (NewParseError e, toks)
  | .ok (ra, t1) =>
  match MaybeSkipCommaThenParseRegister t1 with
  | .error e => (NewParseError e, t1)
  | .ok (rb, t2) =>
  match MaybeSkipCommaThenParseRegister t2 with
  | .error e => (NewParseError e, t2)
  | .ok (rc, t3) =>
  match ParseEOL t3 with
  | .error e => (NewParseError e, t3)
  | .ok t4 => ([.add lineno label ra rb rc], t4)

/-- `ParseADDI`. -/
def ParseADDI (toks : List LexerToken) (label : Option (List Char)) (lineno : Nat) :
    List Instr × List LexerToken :=
  match MaybeSkipCommaThenParseRegister toks with
  | .error e => (NewParseError e, toks)
  | .ok (ra, t1) =>
  match MaybeSkipCommaThenParseRegister t1 with
  | .error e => (NewParseError e, t1)
  | .ok (rb, t2) =>
  match MaybeSkipCommaThenParseImmediate t2 with
  | .error e => (NewParseError e, t2)
  | .ok (imm, t3) =>
  match ParseEOL t3 with
  | .error e => (NewParseError e, t3)
  | .ok t4 => ([.addi lineno label ra rb imm], t4)

/-- `ParseNAND`. -/
def ParseNAND (toks : List LexerToken) (label : Option (List Char)) (lineno : Nat) :
    List Instr × List LexerToken :=
  match MaybeSkipCommaThenParseRegister toks with
  | .error e => (NewParseError e, toks)
  | .ok (ra, t1) =>
  match MaybeSkipCommaThenParseRegister t1 with
  | .error e => (NewParseError e, t1)
  | .ok (rb, t2) =>
  match MaybeSkipCommaThenParseRegister t2 with
  | .error e => (NewParseError e, t2)
  | .ok (rc, t3) =>
  match ParseEOL t3 with
  | .error e => (NewParseError e, t3)
  | .ok t4 => ([.nand lineno label ra rb rc], t4)

/-- `ParseLUI`. -/
def ParseLUI (toks : List LexerToken) (label : Option (List Char)) (lineno : Nat) :
    List Instr × List LexerToken :=
  match MaybeSkipCommaThenParseRegister toks with
  | .error e => (NewParseError e, toks)
  | .ok (ra, t1) =>
  match MaybeSkipCommaThenParseImmediate t1 with
  | .error e => (NewParseError e, t1)
  | .ok (imm, t2) =>
  match ParseEOL t2 with
  | .error e => (NewParseError e, t2)
  | .ok t3 => ([.lui lineno label ra imm], t3)

/-- `ParseSW`. -/
def ParseSW (toks : List LexerToken) (label : Option (List Char)) (lineno : Nat) :
    List Instr × List LexerToken :=
  match MaybeSkipCommaThenParseRegister toks with
  | .error e => (NewParseError e, toks)
  | .ok (ra, t1) =>
  match MaybeSkipCommaThenParseRegister t1 with
  | .error e => (NewParseError e, t1)
  | .ok (rb, t2) =>
  match MaybeSkipCommaThenParseImmediate t2 with
  | .error e => (NewParseError e, t2)
  | .ok (imm, t3) =>
  match ParseEOL t3 with
  | .error e => (NewParseError e, t3)
  | .ok t4 => ([.sw lineno label ra rb imm], t4)

/-- `ParseLW`. -/
def ParseLW (toks : List LexerToken) (label : Option (List Char)) (lineno : Nat) :
    List Instr × List LexerToken :=
  match MaybeSkipCommaThenParseRegister toks with
  | .error e => (NewParseError e, toks)
  | .ok (ra, t1) =>
  match MaybeSkipCommaThenParseRegister t1 with
  | .error e => (NewParseError e, t1)
  | .ok (rb, t2) =>
  match MaybeSkipCommaThenParseImmediate t2 with
  | .error e => (NewParseError e, t2)
  | .ok (imm, t3) =>
  match ParseEOL t3 with
  | .error e => (NewParseError e, t3)
  | .ok t4 => ([.lw lineno label ra rb imm], t4)

/-- `ParseBEQ`. -/
def ParseBEQ (toks : List LexerToken) (label : Option (List Char)) (lineno : Nat) :
    List Instr × List LexerToken :=
  match MaybeSkipCommaThenParseRegister toks with
  | .error e => (NewParseError e, toks)
  | .ok (ra, t1) =>
  match MaybeSkipCommaThenParseRegister t1 with
  | .error e => (NewParseError e, t1)
  | .ok (rb, t2) =>
  match MaybeSkipCommaThenParseImmediate t2 with
  | .error e => (NewParseError e, t2)
  | .ok (imm, t3) =>
  match ParseEOL t3 with
  | .error e => (NewParseError e, t3)
  | .ok t4 => ([.beq lineno label ra rb imm], t4)

/-- `ParseJALR`: two registers only; the immediate field stays zero. -/
def ParseJALR (toks : List LexerToken) (label : Option (List Char)) (lineno : Nat) :
    List Instr × List LexerToken :=
  match MaybeSkipCommaThenParseRegister toks with
  | .error e => (NewParseError e, toks)
  | .ok (ra, t1) =>
  match MaybeSkipCommaThenParseRegister t1 with
  | .error e => (NewParseError e, t1)
  | .ok (rb, t2) =>
  match ParseEOL t2 with
  | .error e => (NewParseError e, t2)
  | .ok t3 => ([.jalr lineno label ra rb 0], t3)

/-- `ParseNOP`: expands to `add r0 r0 r0`. -/
def ParseNOP (toks : List LexerToken) (label : Option (List Char)) (lineno : Nat) :
    List Instr × List LexerToken :=
  match ParseEOL toks with
  | .error e => (NewParseError e, toks)
  | .ok t1 => ([.add lineno label 0 0 0], t1)

/-- `ParseHALT`: expands to `jalr r0 r0` with the special immediate. -/
def ParseHALT (toks : List LexerToken) (label : Option (List Char)) (lineno : Nat) :
    List Instr × List LexerToken :=
  match ParseEOL toks with
  | .error e => (NewParseError e, toks)
  | .ok t1 =>
    ([.jalr lineno label 0 0 (ExceptionTypeEXCEPTION ||| ExceptionValueHALT)], t1)

/-- `ParseLLI`. -/
def ParseLLI (toks : List LexerToken) (label : Option (List Char)) (lineno : Nat) :
    List Instr × List LexerToken :=
  match MaybeSkipCommaThenParseRegister toks with
  | .error e => (NewParseError e, toks)
  | .ok (ra, t1) =>
  match MaybeSkipCommaThenParseImmediate t1 with
  | .error e => (NewParseError e, t1)
  | .ok (imm, t2) =>
  match ParseEOL t2 with
  | .error e => (NewParseError e, t2)
  | .ok t3 => ([.lli lineno label ra imm], t3)

/-- `ParseMOVI`: expands to LUI then LLI; only the first word keeps the
label. -/
def ParseMOVI (toks : List LexerToken) (label : Option (List Char)) (lineno : Nat) :
    List Instr × List LexerToken :=
  match MaybeSkipCommaThenParseRegister toks with
  | .error e => (NewParseError e, toks)
  | .ok (ra, t1) =>
  match MaybeSkipCommaThenParseImmediate t1 with
  | .error e => (NewParseError e, t1)
  | .ok (imm, t2) =>
  match ParseEOL t2 with
  | .error e => (NewParseError e, t2)
  | .ok t3 => ([.lui lineno label ra imm, .lli lineno none ra imm], t3)

/-- `ParseFILL`: one DATA word from `strconv.ParseInt(imm, 0, 16)`. -/
def ParseFILL (toks : List LexerToken) (label : Option (List Char)) (lineno : Nat) :
    List Instr × List LexerToken :=
  match MaybeSkipCommaThenParseImmediate toks with
  | .error e => (NewParseError e, toks)
  | .ok (imm, t1) =>
  match ParseEOL t1 with
  | .error e => (NewParseError e, t1)
  | .ok t2 =>
    match parseGoInt imm 16 with
    | none => (NewParseError .outOfRangeData, t2)
    | some v => ([.data lineno label (toU16 v)], t2)

/-- The DATA words emitted by `.space`: the label stays on the first. -/
def mkSpace : Nat → Nat → Option (List Char) → List Instr
  | 0, _, _ => []
  | n + 1, lineno, label => .data lineno label 0 :: mkSpace n lineno none

/-- `ParseSPACE`: `strconv.ParseUint(imm, 0, 16)`, strictly positive. -/
def ParseSPACE (toks : List LexerToken) (label : Option (List Char)) (lineno : Nat) :
    List Instr × List LexerToken :=
  match MaybeSkipCommaThenParseImmediate toks with
  | .error e => (NewParseError e, toks)
  | .ok (imm, t1) =>
  match ParseEOL t1 with
  | .error e => (NewParseError e, t1)
  | .ok t2 =>
    match parseGoUint imm 16 with
    | none => (NewParseError .outOfRangeData, t2)
    | some 0 => (NewParseError .outOfRangeData, t2)
    | some (n + 1) => (mkSpace (n + 1) lineno label, t2)

/-- The `InstructionParsers` dispatch table. -/
def instrDispatch (v : String) :
    Option (List LexerToken → Option (List Char) → Nat → List Instr × List LexerToken) :=
  match v with
  | "add" => some ParseADD
  | "addi" => some ParseADDI
  | "nand" => some ParseNAND
  | "lui" => some ParseLUI
  | "sw" => some ParseSW
  | "lw" => some ParseLW
  | "beq" => some ParseBEQ
  | "jalr" => some ParseJALR
  | "nop" => some ParseNOP
  | "halt" => some ParseHALT
  | "lli" => some ParseLLI
  | "movi" => some ParseMOVI
  | ".fill" => some ParseFILL
  | ".space" => some ParseSPACE
  | _ => none

/-- Step 2 of `ParseSingleInstruction`: the mnemonic token and dispatch. -/
def parseBody (label : Option (List Char)) (t : LexerToken) (ts : List LexerToken) :
    List Instr × List LexerToken :=
  match t with
  | .nameOrNumber v ln =>
    match instrDispatch (String.mk v) with
    | some p => p ts label ln
    | none => (NewParseError (.unknownInstruction ln), ts)
  | _ => (NewParseError (.expectedNameOrNumber t.lineno), ts)

/-- `ParseSingleInstruction`: skip empty lines, take an optional label,
then dispatch on the mnemonic; `none` is the EOF return. -/
def ParseSingleInstruction : List LexerToken → Option (List Instr × List LexerToken)
  | [] => none
  | t :: ts =>
    match t with
    | .eof _ => none
    | .eol _ => ParseSingleInstruction ts
    | .label v _ =>
      let (t2, ts2) := nextTok ts
      some (parseBody (some (goTrimSuffixColon v)) t2 ts2)
    | _ => some (parseBody none t ts)

/-- `ParseAsync`'s inner emission loop: forward instructions, stopping
right after the first error instruction. -/
def emitUntilErr : List Instr → List Instr × Bool
  | [] => ([], false)
  | i :: is =>
    match i.errOf with
    | some _ => ([i], true)
    | none => (i :: (emitUntilErr is).1, (emitUntilErr is).2)

/-- `ParseAsync`, with fuel (each `ParseSingleInstruction` call consumes
at least one token, so `toks.length + 1` is enough). -/
def ParseAsyncAux (fuel : Nat) (toks : List LexerToken) : List Instr :=
  match fuel with
  | 0 => []
  | fuel + 1 =>
    match ParseSingleInstruction toks with
    | none => []
    | some (instrs, rest) =>
      if (emitUntilErr instrs).2 then (emitUntilErr instrs).1
      else (emitUntilErr instrs).1 ++ ParseAsyncAux fuel rest

/-- Lex and parse a whole source text. -/
def parseProgram (src : List Char) : List Instr :=
  let toks := lexProgram src
  ParseAsyncAux (toks.length + 1) toks

/-! ## Encoder (the revised instruction set, with per-instruction `Encode`
taking the label map and a pc, and `ResolveImmediate` that only warns on
out-of-range values) and the two-pass assembler (asm.go). -/

/-- The label map: a Go `map[string]int64`, modelled as an assoc list
where insertion prepends, so the most recent binding wins. -/
def Labels := List (List Char × Int)

/-- Map lookup. -/
def lookupLabel (labels : Labels) (name : List Char) : Option Int :=
  match labels with
  | [] => none
  | (k, v) :: rest => if k = name then some v else lookupLabel rest name

/-- Map insertion (`labels[k] = v`). -/
def insertLabel (labels : Labels) (name : List Char) (v : Int) : Labels :=
  (name, v) :: labels

/-- `ResolveImmediate`: parse the text as a number, else look it up in the
label map; an out-of-range value only logs a warning (returned here as
the Bool flag) and the value is kept, truncated by the Go `uint16`
conversion. -/
def ResolveImmediate (labels : Labels) (name : List Char) (bits : Nat) :
    Except AsmErr (Nat × Bool) :=
  match parseGoInt name 64 with
  | some v =>
    .ok (toU16 v, decide (v < -(2 ^ (bits - 1) : Int) ∨ v > 2 ^ (bits - 1) - 1))
  | none =>
    match lookupLabel labels name with
    | some v =>
      .ok (toU16 v, decide (v < -(2 ^ (bits - 1) : Int) ∨ v > 2 ^ (bits - 1) - 1))
    | none => .error (.cannotEncodeMissingLabel name)

/-- `Instruction.Encode` of each variant, dispatched on the tag.  The pc
argument is accepted and ignored by every variant, exactly as in the
source. -/
def Encode (i : Instr) (labels : Labels) (pc : Nat) : Except AsmErr Nat :=
  match i with
  | .err _ _ => .error .cannotEncodeErrInstr
  | .add _ _ ra rb rc =>
    .ok ((OpcodeADD &&& 7) <<< 13 ||| (ra &&& 7) <<< 10 ||| (rb &&& 7) <<< 7 ||| (rc &&& 7))
  | .addi _ _ ra rb imm =>
    match ResolveImmediate labels imm 7 with
    | .error e => .error e
    | .ok (v, _) =>
      .ok ((OpcodeADDI &&& 7) <<< 13 ||| (ra &&& 7) <<< 10 ||| (rb &&& 7) <<< 7 ||| (v &&& 127))
  | .nand _ _ ra rb rc =>
    .ok ((OpcodeNAND &&& 7) <<< 13 ||| (ra &&& 7) <<< 10 ||| (rb &&& 7) <<< 7 ||| (rc &&& 7))
  | .lui _ _ ra imm =>
    match ResolveImmediate labels imm 16 with
    | .error e => .error e
    | .ok (v, _) =>
      .ok ((OpcodeLUI &&& 7) <<< 13 ||| (ra &&& 7) <<< 10 ||| (v >>> 6))
  | .sw _ _ ra rb imm =>
    match ResolveImmediate labels imm 7 with
    | .error e => .error e
    | .ok (v, _) =>
      .ok ((OpcodeSW &&& 7) <<< 13 ||| (ra &&& 7) <<< 10 ||| (rb &&& 7) <<< 7 ||| (v &&& 127))
  | .lw _ _ ra rb imm =>
    match ResolveImmediate labels imm 7 with
    | .error e => .error e
    | .ok (v, _) =>
      .ok ((OpcodeLW &&& 7) <<< 13 ||| (ra &&& 7) <<< 10 ||| (rb &&& 7) <<< 7 ||| (v &&& 127))
  | .beq _ _ ra rb imm =>
    match ResolveImmediate labels imm 7 with
    | .error e => .error e
    | .ok (v, _) =>
      .ok ((OpcodeBEQ &&& 7) <<< 13 ||| (ra &&& 7) <<< 10 ||| (rb &&& 7) <<< 7 ||| (v &&& 127))
  | .jalr _ _ ra rb imm =>
    .ok ((OpcodeJALR &&& 7) <<< 13 ||| (ra &&& 7) <<< 10 ||| (rb &&& 7) <<< 7 ||| (imm &&& 127))
  | .lli _ _ ra imm =>
    match ResolveImmediate labels imm 16 with
    | .error e => .error e
    | .ok (v, _) =>
      .ok ((OpcodeADDI &&& 7) <<< 13 ||| (ra &&& 7) <<< 10 ||| (ra &&& 7) <<< 7 ||| (v &&& 63))
  | .data _ _ v => .ok v

/-- An assembler output record (`InstructionOrError`). -/
inductive Rec
  | word (w : Nat) (lineno : Nat)
  | error (e : AsmErr) (lineno : Nat)
deriving DecidableEq

/-- Pass 1 of `AssemblerAsync`: walk the parsed instructions, recording
each label at the current index; stop at an error instruction. -/
def collectLabels (instrs : List Instr) (idx : Int) (acc : Labels) :
    Except (AsmErr × Nat) Labels :=
  match instrs with
  | [] => .ok acc
  | i :: is =>
    match i.errOf with
    | some e => .error (e, i.lineOf)
    | none =>
      match i.labelOf with
      | some l => collectLabels is (idx + 1) (insertLabel acc l idx)
      | none => collectLabels is (idx + 1) acc

/-- Pass 2 of `AssemblerAsync`: encode each instruction at its pc; an
encode error yields an error record and encoding continues, but a pc
above 65535 is fatal. -/
def encodeAll (labels : Labels) (instrs : List Instr) (pc : Nat) : List Rec :=
  match instrs with
  | [] => []
  | i :: is =>
    if pc > 65535 then [.error .tooManyInstructions i.lineOf]
    else
      match Encode i labels pc with
      | .ok w => .word w i.lineOf :: encodeAll labels is (pc + 1)
      | .error e => .error e i.lineOf :: encodeAll labels is (pc + 1)

/-- `AssemblerAsync` on an already-parsed instruction list: pass 1 aborts
with a single error record on a parse error, else pass 2 encodes. -/
def assembleInstrs (instrs : List Instr) : List Rec :=
  match collectLabels instrs 0 [] with
  | .error (e, ln) => [.error e ln]
  | .ok labels => encodeAll labels instrs 0

/-- The whole assembler: bytes to records. -/
def assemble (src : List Char) : List Rec :=
  assembleInstrs (parseProgram src)

/-- The machine words of the emitted records, in order. -/
def asmWords (src : List Char) : List Nat :=
  (assemble src).filterMap fun r =>
    match r with
    | .word w _ => some w
    | .error _ _ => none

/-! ## Disassembler (pkg/vm) -/

/-- Decimal rendering of a `Nat`, with fuel (`n` itself suffices since
each step divides by 10). -/
def renderNatAux : Nat → Nat → List Char → List Char
  | 0, _, acc => acc
  | fuel + 1, n, acc =>
    if n = 0 then acc
    else renderNatAux fuel (n / 10) (Char.ofNat (48 + n % 10) :: acc)

/-- `%d` of a non-negative value. -/
def renderNat (n : Nat) : List Char :=
  if n = 0 then ['0'] else renderNatAux n n []

/-- `%d` of a signed value. -/
def renderInt (v : Int) : List Char :=
  if v < 0 then '-' :: renderNat (-v).toNat else renderNat v.toNat

/-- The `int16(x)` reinterpretation of a `uint16` field. -/
def int16val (v : Nat) : Int :=
  if v ≥ 32768 then (v : Int) - 65536 else (v : Int)

/-- `r%d`. -/
def renderReg (r : Nat) : List Char := 'r' :: renderNat r

/-- `Disassemble`: one word to its canonical lowercase mnemonic line,
using the same field decoding as Execute. -/
def Disassemble (instr : Nat) : List Char :=
  let opcode := instr >>> 13
  let ra := (instr >>> 10) &&& 7
  let rb := (instr >>> 7) &&& 7
  let rc := instr &&& 7
  let imm7 := SignExtend7 (instr &&& 127)
  let imm10 := instr &&& 1023
  if opcode = OpcodeADD then
    "add ".toList ++ renderReg ra ++ [' '] ++ renderReg rb ++ [' '] ++ renderReg rc
  else if opcode = OpcodeADDI then
    "addi ".toList ++ renderReg ra ++ [' '] ++ renderReg rb ++ [' '] ++ renderInt (int16val imm7)
  else if opcode = OpcodeNAND then
    "nand ".toList ++ renderReg ra ++ [' '] ++ renderReg rb ++ [' '] ++ renderReg rc
  else if opcode = OpcodeLUI then
    "lui ".toList ++ renderReg ra ++ [' '] ++ renderNat imm10
  else if opcode = OpcodeSW then
    "sw ".toList ++ renderReg ra ++ [' '] ++ renderReg rb ++ [' '] ++ renderInt (int16val imm7)
  else if opcode = OpcodeLW then
    "lw ".toList ++ renderReg ra ++ [' '] ++ renderReg rb ++ [' '] ++ renderInt (int16val imm7)
  else if opcode = OpcodeBEQ then
    "beq ".toList ++ renderReg ra ++ [' '] ++ renderReg rb ++ [' '] ++ renderInt (int16val imm7)
  else if opcode = OpcodeJALR then
    "jalr ".toList ++ renderReg ra ++ [' '] ++ renderReg rb ++ [' '] ++ renderInt (int16val imm7)
  else
    "# unknown instruction: ".toList ++ renderNat instr

/-! ## Concrete programs and auxiliary definitions used by the theorems -/

/-- Scenario 1: the one-line program `halt`. -/
def haltSrc : List Char := "halt".toList

/-- Scenario 2: `movi r1 0x1234` then `halt`. -/
def moviHexSrc : List Char := "movi r1 0x1234\nhalt".toList

/-- Scenario 2 with the same immediate written in decimal. -/
def moviDecSrc : List Char := "movi r1 4660\nhalt".toList

/-- Scenario 3: a label, an add, an addi, and a backwards-labelled BEQ. -/
def scn3Src : List Char :=
  "start:  add r1 r0 r0\n        addi r1 r1 1\n        beq r0 r0 start".toList

/-- Scenario 6: an out-of-range ADDI immediate. -/
def addiOORSrc : List Char := "addi r1 r0 200".toList

/-- Scenario 4: a truncated `add`. -/
def parseErrSrc : List Char := "add r1 r2".toList

/-- Two BEQ lines that refer to labels that are never defined. -/
def twoEncErrSrc : List Char := "beq r0 r0 foo\nbeq r0 r0 bar".toList

/-- A one-line LUI whose immediate needs more than 6 bits. -/
def luiSrc : List Char := "lui r1 4660".toList

/-- The pass-1 label map of a source text (empty on a parse error). -/
def pass1Labels (src : List Char) : Labels :=
  match collectLabels (parseProgram src) 0 [] with
  | .ok ls => ls
  | .error _ => []

/-- The record built from one `Encode` outcome in pass 2. -/
def recordOf (r : Except AsmErr Nat) (ln : Nat) : Rec :=
  match r with
  | .ok w => .word w ln
  | .error e => .error e ln

/-- The sixteen texts the register-operand rule accepts: `r0`…`r7` and,
because `strings.TrimPrefix` leaves a string without the prefix
unchanged, also the bare digits `0`…`7`. -/
def regForms : List (List Char) :=
  [['r', '0'], ['r', '1'], ['r', '2'], ['r', '3'],
   ['r', '4'], ['r', '5'], ['r', '6'], ['r', '7'],
   ['0'], ['1'], ['2'], ['3'], ['4'], ['5'], ['6'], ['7']]

/-- The digit character of a register index. -/
def digitChar (k : Nat) : Char := Char.ofNat (48 + k)

/-- Whether a parsed instruction list is free of error instructions. -/
def allValid (instrs : List Instr) : Bool :=
  instrs.all fun i => i.errOf.isNone

/-- Errors appear at most once and only in final position. -/
def errsOnlyLast : List Instr → Bool
  | [] => true
  | i :: is =>
    match i.errOf with
    | some _ => is.isEmpty
    | none => errsOnlyLast is

/-- Decidable equality of `Except` results, so that concrete parse and
encode outcomes can be computed inside proofs. -/
instance {α β : Type} [DecidableEq α] [DecidableEq β] : DecidableEq (Except α β) :=
  fun a b =>
    match a, b with
    | .ok x, .ok y =>
      if h : x = y then isTrue (congrArg Except.ok h)
      else isFalse (fun hc => h (Except.ok.inj hc))
    | .error x, .error y =>
      if h : x = y then isTrue (congrArg Except.error h)
      else isFalse (fun hc => h (Except.error.inj hc))
    | .ok _, .error _ => isFalse (fun hc => Except.noConfusion hc)
    | .error _, .ok _ => isFalse (fun hc => Except.noConfusion hc)

/-- The canonical text of a 7-bit immediate field, as the disassembler
renders it: the sign-extended field reinterpreted as a signed 16-bit
value, in signed decimal. -/
def immStr (low7 : Nat) : List Char := renderInt (int16val (SignExtend7 low7))

/-- The blank predicate of the lexer's last rule. -/
def isBlankChar (x : Char) : Bool := x = ' ' || x = '\t'

/-- A zeroed machine about to execute the halt word, with PC = 5. -/
def vmAtHalt : VM := { CI := 0xE071, GPR := fun _ => 0, M := fun _ => 0, PC := 5 }

/-- A zeroed machine about to execute `jalr r1 r2` (word 0xE500): the
register indices are not both zero, but both register values are. -/
def vmAtJalr12 : VM := { CI := 0xE500, GPR := fun _ => 0, M := fun _ => 0, PC := 5 }

/-- A machine about to execute `jalr r1 r2` with nonzero GPR[1]. -/
def vmAtJalrLink : VM :=
  { CI := 0xE500, GPR := fun i => if i = 1 then 7 else if i = 2 then 9 else 0,
    M := fun _ => 0, PC := 5 }

/-! ## Theorems -/

/-- C1, counterexample: assembling `halt` does not produce the word
0x7001; the emitted word is 0xE071 (opcode 7 in bits 15..13 and the
exception code 113 in the low seven bits). -/
theorem C1_halt_word_counterexample : asmWords haltSrc ≠ [0x7001] := by decide

/-- C1, amended: assembling the one-line program `halt` produces exactly
one machine word, 0xE071, and loading that word at address 0 and running
the VM yields the VMHalted outcome on the first Execute call. -/
theorem C1_halt_word_amended :
    assemble haltSrc = [.word 0xE071 1] ∧
    ((loadVM (asmWords haltSrc)).Step).2 = some .halted := by
  constructor
  · decide
  · decide

/-- C2, counterexample: assembling `movi r1 0x1234` + `halt` does not
produce the three words 0x6048, 0x2434, 0x7001 — it produces no words at
all. -/
theorem C2_movi_hex_counterexample :
    asmWords moviHexSrc ≠ [0x6048, 0x2434, 0x7001] := by decide

/-- C2, amended: the number rule of the lexer matches the lone `0` of
`0x1234`, leaving `x1234` to the name rule, so the parser fails with
ExpectedEOL on line 1 and assembly aborts with that single diagnostic
and no machine words.  (Assembling the same program with the immediate
written in decimal yields 0x6448, 0x24B4, 0xE071, sets GPR[1] = 0x1234
and halts.) -/
theorem C2_movi_hex_amended :
    lexLine "movi r1 0x1234".toList 1 =
      [.nameOrNumber "movi".toList 1, .nameOrNumber "r1".toList 1,
       .nameOrNumber "0".toList 1, .nameOrNumber "x1234".toList 1, .eol 1] ∧
    assemble moviHexSrc = [.error (.expectedEOL 1) 0] ∧
    assemble moviDecSrc = [.word 0x6448 1, .word 0x24B4 1, .word 0xE071 2] ∧
    (let r2 := ((loadVM (asmWords moviDecSrc)).Step).1.Step
     (r2.1.GPR 1 = 0x1234 ∧ (r2.1.Step).2 = some .halted)) := by
  refine ⟨by decide, by decide, by decide, by decide, by decide⟩

/-- SignExtend7 only adds bits at position 7 and above, so the low seven
bits survive it unchanged. -/
theorem SignExtend7_low7 (x : Nat) : SignExtend7 x &&& 127 = x &&& 127 := by
  unfold SignExtend7
  split
  · apply Nat.eq_of_testBit_eq
    intro i
    simp only [Nat.testBit_and, Nat.testBit_or]
    by_cases hi : i < 7
    · have h65408 : (65408 : Nat).testBit i = false := by interval_cases i <;> decide
      simp [h65408]
    · have h127 : (127 : Nat).testBit i = false := by
        apply Nat.testBit_lt_two_pow
        calc (127 : Nat) < 2 ^ 7 := by norm_num
          _ ≤ 2 ^ i := Nat.pow_le_pow_right (by norm_num) (by omega)
      simp [h127]
  · rfl

/-- A state with CI = 0 and GPR[0] = 0 executes `add r0 r0 r0` and is
left unchanged, with no error. -/
theorem execute_of_cleared (t : VM) (h1 : t.CI = 0) (h2 : t.GPR 0 = 0) :
    t.Execute = (t, none) := by
  obtain ⟨ci, g, m, pc⟩ := t
  simp only at h1 h2
  subst h1
  have hcore : (VM.mk 0 g m pc).ExecuteCore =
      ({ CI := 0, GPR := Function.update g 0 ((g 0 + g 0) % wordMod), M := m, PC := pc },
        none) := by
    unfold VM.ExecuteCore
    simp [Nat.zero_shiftRight, Nat.zero_and, OpcodeADD]
  have hg0 : Function.update g 0 0 = g := by
    have h := Function.update_eq_self 0 g
    rwa [h2] at h
  unfold VM.Execute
  rw [hcore]
  simp [Function.update_idem, hg0]

/-- C4: after any single Execute call, GPR[0] = 0 and CI = 0 — also on
the halt and exception paths — and therefore a second Execute without an
intervening Fetch leaves the state unchanged and reports no error. -/
theorem C4_execute_clears (s : VM) :
    (s.Execute).1.GPR 0 = 0 ∧ (s.Execute).1.CI = 0 ∧
    ((s.Execute).1).Execute = ((s.Execute).1, none) := by
  refine ⟨?_, rfl, ?_⟩
  · simp [VM.Execute]
  · exact execute_of_cleared _ rfl (by simp [VM.Execute])

/-- The opcode switch returns an error only from the JALR special case,
which mutates nothing. -/
theorem executeCore_error_frame (s : VM) (h : (s.ExecuteCore).2 ≠ none) :
    (s.ExecuteCore).1 = s := by
  unfold VM.ExecuteCore at h ⊢
  dsimp only at h ⊢
  by_cases h0 : s.CI >>> 13 = OpcodeADD
  · rw [if_pos h0] at h; exact absurd rfl h
  rw [if_neg h0] at h ⊢
  by_cases h1 : s.CI >>> 13 = OpcodeADDI
  · rw [if_pos h1] at h; exact absurd rfl h
  rw [if_neg h1] at h ⊢
  by_cases h2 : s.CI >>> 13 = OpcodeNAND
  · rw [if_pos h2] at h; exact absurd rfl h
  rw [if_neg h2] at h ⊢
  by_cases h3 : s.CI >>> 13 = OpcodeLUI
  · rw [if_pos h3] at h; exact absurd rfl h
  rw [if_neg h3] at h ⊢
  by_cases h4 : s.CI >>> 13 = OpcodeSW
  · rw [if_pos h4] at h; exact absurd rfl h
  rw [if_neg h4] at h ⊢
  by_cases h5 : s.CI >>> 13 = OpcodeLW
  · rw [if_pos h5] at h; exact absurd rfl h
  rw [if_neg h5] at h ⊢
  by_cases h6 : s.CI >>> 13 = OpcodeBEQ
  · rw [if_pos h6] at h; exact absurd rfl h
  rw [if_neg h6] at h ⊢
  by_cases h7 : s.CI >>> 13 = OpcodeJALR
  · rw [if_pos h7] at h ⊢
    by_cases hz : s.GPR (s.CI >>> 10 &&& 7) = 0 ∧ s.GPR (s.CI >>> 7 &&& 7) = 0
    · rw [if_pos hz] at h ⊢
      by_cases h113 : SignExtend7 (s.CI &&& 127) &&& 127 =
          ExceptionTypeEXCEPTION ||| ExceptionValueHALT
      · rw [if_pos h113]
      · rw [if_neg h113]
    · rw [if_neg hz] at h; exact absurd rfl h
  · rw [if_neg h7] at h; exact absurd rfl h

/-- C10: whenever Execute returns the halt or exception error, the PC,
GPR[1..7] and the whole memory are untouched: the state changes only by
the always-applied clearing of GPR[0] and CI. -/
theorem C10_error_path_frame (s : VM) (h : (s.Execute).2 ≠ none) :
    (s.Execute).1 = { s with GPR := Function.update s.GPR 0 0, CI := 0 } := by
  have h2 : (s.Execute).2 = (s.ExecuteCore).2 := rfl
  have h1 : (s.Execute).1 =
      { (s.ExecuteCore).1 with
        GPR := Function.update (s.ExecuteCore).1.GPR 0 0, CI := 0 } := rfl
  rw [h1, executeCore_error_frame s (h2 ▸ h)]

/-- C10 witness: the frame property at a concrete halting state. -/
theorem C10_error_path_frame_witness :
    (vmAtHalt.Execute).1 = { vmAtHalt with GPR := Function.update vmAtHalt.GPR 0 0, CI := 0 } :=
  C10_error_path_frame vmAtHalt (by decide)

/-- The decoded JALR case of the opcode switch, in full. -/
theorem executeCore_jalr (s : VM) (hop : s.CI >>> 13 = 7) :
    s.ExecuteCore =
      (if s.GPR ((s.CI >>> 10) &&& 7) = 0 ∧ s.GPR ((s.CI >>> 7) &&& 7) = 0 then
        if s.CI &&& 127 = 113 then (s, some .halted)
        else (s, some (.exception (SignExtend7 (s.CI &&& 127))))
      else
        ({ s with
            GPR := Function.update s.GPR ((s.CI >>> 10) &&& 7) s.PC,
            PC := Function.update s.GPR ((s.CI >>> 10) &&& 7) s.PC ((s.CI >>> 7) &&& 7) },
          none)) := by
  have h113 : ExceptionTypeEXCEPTION ||| ExceptionValueHALT = 113 := rfl
  unfold VM.ExecuteCore
  rw [hop]
  simp only [OpcodeADD, OpcodeADDI, OpcodeNAND, OpcodeLUI, OpcodeSW, OpcodeLW, OpcodeBEQ,
    OpcodeJALR, h113, SignExtend7_low7, Nat.and_assoc]
  norm_num

/-- C3, amended: the JALR special case triggers on the register values,
not the register indices: whenever `GPR[ra] = 0` and `GPR[rb] = 0` (which
covers but is not limited to `ra = rb = 0`), Execute interprets the low 7
bits of CI as an exception code — 113 returns the halt error and every
other value, zero included, a generic exception — and mutates nothing
beyond the GPR[0]/CI clearing; otherwise `GPR[ra] ← PC` and then
`PC ← GPR[rb]` (reading the just-updated register file), with no error. -/
theorem C3_jalr_amended (s : VM) (hop : s.CI >>> 13 = 7) :
    (s.GPR ((s.CI >>> 10) &&& 7) = 0 ∧ s.GPR ((s.CI >>> 7) &&& 7) = 0 →
      (s.CI &&& 127 = 113 →
        s.Execute = ({ s with GPR := Function.update s.GPR 0 0, CI := 0 }, some .halted)) ∧
      (s.CI &&& 127 ≠ 113 →
        s.Execute = ({ s with GPR := Function.update s.GPR 0 0, CI := 0 },
          some (.exception (SignExtend7 (s.CI &&& 127)))))) ∧
    (¬(s.GPR ((s.CI >>> 10) &&& 7) = 0 ∧ s.GPR ((s.CI >>> 7) &&& 7) = 0) →
      s.Execute =
        ({ s with
            GPR := Function.update
              (Function.update s.GPR ((s.CI >>> 10) &&& 7) s.PC) 0 0,
            PC := Function.update s.GPR ((s.CI >>> 10) &&& 7) s.PC ((s.CI >>> 7) &&& 7),
            CI := 0 }, none)) := by
  have hc := executeCore_jalr s hop
  have hsplit : s.Execute =
      ({ (s.ExecuteCore).1 with
        GPR := Function.update (s.ExecuteCore).1.GPR 0 0, CI := 0 }, (s.ExecuteCore).2) := rfl
  constructor
  · intro hz
    rw [if_pos hz] at hc
    constructor
    · intro h113
      rw [hsplit, hc, if_pos h113]
    · intro h113
      rw [hsplit, hc, if_neg h113]
  · intro hnz
    rw [if_neg hnz] at hc
    rw [hsplit, hc]

/-- C3 witness: executing the halt word 0xE071 on a zeroed register file
returns the halt error. -/
theorem C3_jalr_amended_witness : (vmAtHalt.Execute).2 = some VMErr.halted := by
  have h := ((C3_jalr_amended vmAtHalt (by decide)).1 ⟨rfl, rfl⟩).1 (by decide)
  rw [h]

/-- C3, counterexample: with CI = 0xE500 (`jalr r1 r2`, register indices
not both zero) and all registers zero, Execute returns a generic
exception instead of the link-and-jump with no error that the claim
requires. -/
theorem C3_jalr_counterexample : (vmAtJalr12.Execute).2 = some (VMErr.exception 0) := by
  decide

/-- The decoded BEQ case of the opcode switch, in full. -/
theorem executeCore_beq (s : VM) (hop : s.CI >>> 13 = 6) :
    s.ExecuteCore =
      (if s.GPR (s.CI >>> 10 &&& 7) = s.GPR (s.CI >>> 7 &&& 7) then
        { s with PC := (s.PC + SignExtend7 (s.CI &&& 127)) % wordMod }
      else s, none) := by
  unfold VM.ExecuteCore
  rw [hop]
  norm_num [OpcodeADD, OpcodeADDI, OpcodeNAND, OpcodeLUI, OpcodeSW, OpcodeLW,
    OpcodeBEQ, OpcodeJALR]

/-- C5: BEQ immediates are encoded exactly as the user-supplied integer
(or the referenced label's absolute instruction index), with no
subtraction of the current pc — `Encode` ignores its pc argument
entirely — while the VM adds the sign-extended 7-bit immediate to the
post-fetch PC; in scenario 3 `start` resolves to index 0 and the taken
branch leaves the next fetch at address 3. -/
theorem C5_beq_pc_quirk :
    (∀ (i : Instr) (labels : Labels) (pc pc2 : Nat),
      Encode i labels pc = Encode i labels pc2) ∧
    (∀ (ln : Nat) (lab : Option (List Char)) (ra rb : Nat) (imm : List Char)
        (labels : Labels) (pc : Nat) (v : Int), parseGoInt imm 64 = some v →
      Encode (.beq ln lab ra rb imm) labels pc =
        .ok (49152 ||| (ra &&& 7) <<< 10 ||| (rb &&& 7) <<< 7 ||| (toU16 v &&& 127))) ∧
    (∀ (ln : Nat) (lab : Option (List Char)) (ra rb : Nat) (imm : List Char)
        (labels : Labels) (pc : Nat) (lv : Int), parseGoInt imm 64 = none →
      lookupLabel labels imm = some lv →
      Encode (.beq ln lab ra rb imm) labels pc =
        .ok (49152 ||| (ra &&& 7) <<< 10 ||| (rb &&& 7) <<< 7 ||| (toU16 lv &&& 127))) ∧
    (∀ s : VM, s.CI >>> 13 = 6 →
      s.GPR (s.CI >>> 10 &&& 7) = s.GPR (s.CI >>> 7 &&& 7) →
      (s.Execute).1.PC = (s.PC + SignExtend7 (s.CI &&& 127)) % wordMod ∧
      (s.Execute).2 = none) ∧
    assemble scn3Src = [.word 1024 1, .word 9345 2, .word 49152 3] ∧
    lookupLabel (pass1Labels scn3Src) "start".toList = some 0 ∧
    (let r1 := (loadVM (asmWords scn3Src)).Step
     let r2 := r1.1.Step
     let r3 := r2.1.Step
     r3.1.PC = 3 ∧ r3.2 = none) := by
  have h6 : ((OpcodeBEQ &&& 7) <<< 13 : Nat) = 49152 := by decide
  refine ⟨fun i labels pc pc2 => rfl, ?_, ?_, ?_, by decide, by decide, by decide, by decide⟩
  · intro ln lab ra rb imm labels pc v h
    simp [Encode, ResolveImmediate, h, h6]
  · intro ln lab ra rb imm labels pc lv h hl
    simp [Encode, ResolveImmediate, h, hl, h6]
  · intro s hop heq
    have hc := executeCore_beq s hop
    have hw1 : (s.Execute).1 =
        { (s.ExecuteCore).1 with
          GPR := Function.update (s.ExecuteCore).1.GPR 0 0, CI := 0 } := rfl
    have hw2 : (s.Execute).2 = (s.ExecuteCore).2 := rfl
    rw [if_pos heq] at hc
    constructor
    · rw [hw1, hc]
    · rw [hw2, hc]

/-- C5 witness: the encoder parts at a numeric and a label immediate, and
the VM part at the scenario's taken branch. -/
theorem C5_beq_pc_quirk_witness :
    Encode (.beq 1 none 0 0 ['0']) [] 0 = .ok 49152 ∧
    Encode (.beq 3 none 0 0 "start".toList) [("start".toList, 0)] 2 = .ok 49152 ∧
    ((VM.mk 49152 (fun _ => 0) (fun _ => 0) 3).Execute).1.PC = 3 := by
  refine ⟨?_, ?_, ?_⟩
  · have h := C5_beq_pc_quirk.2.1 1 none 0 0 ['0'] [] 0 0 (by decide)
    rw [h]
    decide
  · have h := C5_beq_pc_quirk.2.2.1 3 none 0 0 "start".toList [("start".toList, 0)] 2 0
      (by decide) (by decide)
    rw [h]
    decide
  · have h := (C5_beq_pc_quirk.2.2.2.1 (VM.mk 49152 (fun _ => 0) (fun _ => 0) 3)
      (by decide) rfl).1
    rw [h]
    decide

/-- C6, counterexample: the bare text `0` is accepted as register 0 in
register-operand position even though it is none of `r0` … `r7`. -/
theorem C6_register_counterexample :
    MaybeSkipCommaThenParseRegister [.nameOrNumber ['0'] 1] = .ok (0, []) ∧
    ['0'] ∉ [['r', '0'], ['r', '1'], ['r', '2'], ['r', '3'],
             ['r', '4'], ['r', '5'], ['r', '6'], ['r', '7']] := by
  decide

/-- Splitting `strings.TrimPrefix(v, "r")` into its two behaviors. -/
theorem goTrimPrefixR_cases (v : List Char) :
    (∃ rest, v = 'r' :: rest ∧ goTrimPrefixR v = rest) ∨
    ((∀ rest, v ≠ 'r' :: rest) ∧ goTrimPrefixR v = v) := by
  unfold goTrimPrefixR
  split
  · exact Or.inl ⟨_, rfl, rfl⟩
  · next h => exact Or.inr ⟨fun rest hv => h rest hv, rfl⟩

/-- Register texts produce a value exactly when the trimmed form is one
of the eight digit strings. -/
theorem regFromText_some_iff (v : List Char) :
    (∃ n, regFromText v = some n) ↔ v ∈ regForms := by
  constructor
  · rintro ⟨n, hn⟩
    unfold regFromText at hn
    dsimp only at hn
    rcases goTrimPrefixR_cases v with ⟨rest, hv, ht⟩ | ⟨hne, ht⟩
    · rw [ht] at hn
      subst hv
      split_ifs at hn with h0 h1 h2 h3 h4 h5 h6 h7 <;>
        first
          | (subst_vars; decide)
          | cases hn
    · rw [ht] at hn
      split_ifs at hn with h0 h1 h2 h3 h4 h5 h6 h7 <;>
        first
          | (subst_vars; decide)
          | cases hn
  · intro hv
    fin_cases hv <;> exact ⟨_, rfl⟩

/-- C6, amended: a token in register-operand position is accepted exactly
when its text, after stripping one optional leading `r`, is a single
digit 0–7 — so `r0` … `r7` and the bare `0` … `7` are all accepted, with
the digit as the register index; any other NameOrNumber text yields the
InvalidRegister diagnostic, while a non-NameOrNumber token (for example
EOL) yields ExpectedNameOrNumber instead. -/
theorem C6_register_amended (v : List Char) (ln : Nat) (rest : List LexerToken) :
    ((∃ n rest2, MaybeSkipCommaThenParseRegister (.nameOrNumber v ln :: rest) =
        .ok (n, rest2)) ↔ v ∈ regForms) ∧
    (∀ k, k < 8 → v = [digitChar k] ∨ v = ['r', digitChar k] →
      MaybeSkipCommaThenParseRegister (.nameOrNumber v ln :: rest) = .ok (k, rest)) ∧
    (v ∉ regForms →
      MaybeSkipCommaThenParseRegister (.nameOrNumber v ln :: rest) =
        .error (.invalidRegisterName v ln)) ∧
    MaybeSkipCommaThenParseRegister (.eol ln :: rest) =
      .error (.expectedNameOrNumber ln) := by
  refine ⟨?_, ?_, ?_, rfl⟩
  · constructor
    · rintro ⟨n, rest2, hn⟩
      apply (regFromText_some_iff v).1
      simp only [MaybeSkipCommaThenParseRegister, nextTok] at hn
      cases hr : regFromText v with
      | none => simp [hr] at hn
      | some m => exact ⟨m, rfl⟩
    · intro hv
      obtain ⟨n, hn⟩ := (regFromText_some_iff v).2 hv
      refine ⟨n, rest, ?_⟩
      simp only [MaybeSkipCommaThenParseRegister, nextTok]
      simp [hn]
  · intro k hk hv
    interval_cases k <;> rcases hv with rfl | rfl <;> rfl
  · intro hv
    have hnone : regFromText v = none := by
      cases hr : regFromText v with
      | none => rfl
      | some m => exact absurd ((regFromText_some_iff v).1 ⟨m, hr⟩) hv
    simp only [MaybeSkipCommaThenParseRegister, nextTok]
    simp [hnone]

/-- C6 witness: the amended rule applied to the token `r3`. -/
theorem C6_register_amended_witness :
    MaybeSkipCommaThenParseRegister [.nameOrNumber ['r', '3'] 1] = .ok (3, []) :=
  (C6_register_amended ['r', '3'] 1 []).2.1 3 (by norm_num) (Or.inr (by decide))

/-- C9: an immediate outside the field's signed range is only warned
about: `ResolveImmediate` keeps the value (truncated by the `uint16`
conversion), the ADDI encoder masks it to the low seven bits, and
`addi r1 r0 200` still assembles, to 0x2448. -/
theorem C9_out_of_range_truncates :
    (∀ (labels : Labels) (name : List Char) (bits : Nat) (v : Int),
      parseGoInt name 64 = some v →
      (v < -(2 ^ (bits - 1) : Int) ∨ v > 2 ^ (bits - 1) - 1) →
      ResolveImmediate labels name bits = .ok (toU16 v, true)) ∧
    (∀ (ln : Nat) (lab : Option (List Char)) (ra rb : Nat) (imm : List Char)
        (labels : Labels) (pc : Nat) (v : Int), parseGoInt imm 64 = some v →
      Encode (.addi ln lab ra rb imm) labels pc =
        .ok (8192 ||| (ra &&& 7) <<< 10 ||| (rb &&& 7) <<< 7 ||| (toU16 v &&& 127))) ∧
    assemble addiOORSrc = [.word 0x2448 1] := by
  have h1 : ((OpcodeADDI &&& 7) <<< 13 : Nat) = 8192 := by decide
  refine ⟨?_, ?_, by decide⟩
  · intro labels name bits v h hrange
    simp only [ResolveImmediate, h]
    simp only [Except.ok.injEq, Prod.mk.injEq, true_and]
    exact decide_eq_true hrange
  · intro ln lab ra rb imm labels pc v h
    simp [Encode, ResolveImmediate, h, h1]

/-- A parse chunk that stops forwards a slice whose only error is last. -/
theorem emitUntilErr_true (l : List Instr) (h : (emitUntilErr l).2 = true) :
    errsOnlyLast (emitUntilErr l).1 = true := by
  induction l with
  | nil => cases h
  | cons i is ih =>
    unfold emitUntilErr at h ⊢
    cases he : i.errOf with
    | some e =>
      dsimp only
      show (match i.errOf with
        | some _ => ([] : List Instr).isEmpty
        | none => errsOnlyLast []) = true
      rw [he]
      rfl
    | none =>
      rw [he] at h
      dsimp only at h
      dsimp only
      show (match i.errOf with
        | some _ => (emitUntilErr is).1.isEmpty
        | none => errsOnlyLast (emitUntilErr is).1) = true
      rw [he]
      exact ih h

/-- A parse chunk that does not stop is error-free and fully forwarded. -/
theorem emitUntilErr_false (l : List Instr) (h : (emitUntilErr l).2 = false) :
    (emitUntilErr l).1 = l ∧ ∀ i ∈ l, i.errOf = none := by
  induction l with
  | nil => exact ⟨rfl, by simp⟩
  | cons i is ih =>
    unfold emitUntilErr at h ⊢
    cases he : i.errOf with
    | some e =>
      rw [he] at h
      dsimp only at h
      exact Bool.noConfusion h
    | none =>
      rw [he] at h
      dsimp only at h
      dsimp only
      obtain ⟨h1, h2⟩ := ih h
      refine ⟨by rw [h1], ?_⟩
      intro j hj
      rcases List.mem_cons.1 hj with rfl | hj2
      · exact he
      · exact h2 j hj2

/-- An error-free prefix does not affect the error-only-last check. -/
theorem errsOnlyLast_append (pre t : List Instr) (h : ∀ i ∈ pre, i.errOf = none) :
    errsOnlyLast (pre ++ t) = errsOnlyLast t := by
  induction pre with
  | nil => rfl
  | cons i is ih =>
    have hi : i.errOf = none := h i (by simp)
    rw [List.cons_append]
    show (match i.errOf with
      | some _ => (is ++ t).isEmpty
      | none => errsOnlyLast (is ++ t)) = errsOnlyLast t
    rw [hi]
    exact ih fun j hj => h j (List.mem_cons_of_mem i hj)

/-- The parser stops right after the first error instruction, so its
output has errors only in final position. -/
theorem parse_errsOnlyLast (fuel : Nat) (toks : List LexerToken) :
    errsOnlyLast (ParseAsyncAux fuel toks) = true := by
  induction fuel generalizing toks with
  | zero => rfl
  | succ fuel ih =>
    unfold ParseAsyncAux
    cases hpsi : ParseSingleInstruction toks with
    | none => rfl
    | some pr =>
      obtain ⟨instrs, rest⟩ := pr
      dsimp only
      by_cases hst : (emitUntilErr instrs).2 = true
      · rw [if_pos hst]
        exact emitUntilErr_true instrs hst
      · rw [if_neg hst]
        have hfalse : (emitUntilErr instrs).2 = false := by
          cases hb : (emitUntilErr instrs).2
          · rfl
          · exact absurd hb hst
        obtain ⟨heq, hall⟩ := emitUntilErr_false instrs hfalse
        rw [errsOnlyLast_append _ _ (by rw [heq]; exact hall)]
        exact ih rest

/-- If a list whose errors are only last ends with an error instruction,
the prefix is error-free. -/
theorem errsOnlyLast_prefix (pre : List Instr) (e : AsmErr) (ln : Nat)
    (h : errsOnlyLast (pre ++ [.err e ln]) = true) : ∀ i ∈ pre, i.errOf = none := by
  induction pre with
  | nil => intro i hi; cases hi
  | cons j js ih =>
    rw [List.cons_append] at h
    have h2 : (match j.errOf with
        | some _ => (js ++ [Instr.err e ln]).isEmpty
        | none => errsOnlyLast (js ++ [Instr.err e ln])) = true := h
    cases hj : j.errOf with
    | some e2 =>
      rw [hj] at h2
      simp at h2
    | none =>
      rw [hj] at h2
      intro i hi
      rcases List.mem_cons.1 hi with rfl | hi2
      · exact hj
      · exact ih h2 i hi2

/-- Pass 1 stops at the first error instruction and reports it. -/
theorem collectLabels_err (pre : List Instr) (e : AsmErr) (ln : Nat) (post : List Instr)
    (h : ∀ i ∈ pre, i.errOf = none) :
    ∀ (idx : Int) (acc : Labels),
      collectLabels (pre ++ .err e ln :: post) idx acc = .error (e, ln) := by
  induction pre with
  | nil => intro idx acc; rfl
  | cons j js ih =>
    intro idx acc
    have hj := h j (by simp)
    rw [List.cons_append]
    have step : collectLabels (j :: (js ++ Instr.err e ln :: post)) idx acc =
        (match j.errOf with
         | some e2 => Except.error (e2, j.lineOf)
         | none =>
           match j.labelOf with
           | some l2 => collectLabels (js ++ Instr.err e ln :: post) (idx + 1)
               (insertLabel acc l2 idx)
           | none => collectLabels (js ++ Instr.err e ln :: post) (idx + 1) acc) := rfl
    rw [step, hj]
    have hrest := fun i hi => h i (List.mem_cons_of_mem j hi)
    cases hl : j.labelOf with
    | some l2 => exact ih hrest _ _
    | none => exact ih hrest _ _

/-- Pass 1 succeeds on an error-free instruction list. -/
theorem collectLabels_ok (l : List Instr) (h : ∀ i ∈ l, i.errOf = none) :
    ∀ (idx : Int) (acc : Labels), ∃ ls, collectLabels l idx acc = .ok ls := by
  induction l with
  | nil => intro idx acc; exact ⟨acc, rfl⟩
  | cons j js ih =>
    intro idx acc
    have hj := h j (by simp)
    have step : collectLabels (j :: js) idx acc =
        (match j.errOf with
         | some e2 => Except.error (e2, j.lineOf)
         | none =>
           match j.labelOf with
           | some l2 => collectLabels js (idx + 1) (insertLabel acc l2 idx)
           | none => collectLabels js (idx + 1) acc) := rfl
    rw [step, hj]
    have hrest := fun i hi => h i (List.mem_cons_of_mem j hi)
    cases hl : j.labelOf with
    | some l2 => exact ih hrest _ _
    | none => exact ih hrest _ _

/-- Pass 2 emits one record per instruction, never stopping at an encode
error, as long as the instruction count stays within the pc bound. -/
theorem encodeAll_get (l : List Instr) (labels : Labels) :
    ∀ pc : Nat, pc + l.length ≤ 65536 →
      ∀ k : Nat, (encodeAll labels l pc).get? k =
        (l.get? k).map fun i => recordOf (Encode i labels (pc + k)) i.lineOf := by
  induction l with
  | nil => intro pc h k; simp [encodeAll]
  | cons i is ih =>
    intro pc h k
    have hpc : ¬pc > 65535 := by simp at h ⊢; omega
    have step : encodeAll labels (i :: is) pc =
        (if pc > 65535 then [.error .tooManyInstructions i.lineOf]
        else
          match Encode i labels pc with
          | .ok w => .word w i.lineOf :: encodeAll labels is (pc + 1)
          | .error e => .error e i.lineOf :: encodeAll labels is (pc + 1)) := rfl
    rw [step, if_neg hpc]
    cases k with
    | zero =>
      cases he : Encode i labels pc <;> simp [recordOf, he]
    | succ k =>
      have harith : pc + (k + 1) = pc + 1 + k := by omega
      have hih := ih (pc + 1) (by simp at h ⊢; omega) k
      cases he : Encode i labels pc <;> simpa [harith] using hih

/-- C8: a lex or parse error aborts assembly — the parsed stream ends at
the error instruction and the assembler emits exactly that one diagnostic
record — whereas encode errors are per-instruction: pass 2 emits one
record per parsed instruction, an error record for each failing Encode,
and keeps going, so several encode diagnostics can come from one run. -/
theorem C8_error_propagation :
    (∀ (src : List Char) (pre : List Instr) (e : AsmErr) (ln : Nat),
      parseProgram src = pre ++ [.err e ln] → assemble src = [.error e ln]) ∧
    (∀ src : List Char, allValid (parseProgram src) = true →
      (parseProgram src).length ≤ 65536 →
      ∀ k : Nat, (assemble src).get? k =
        ((parseProgram src).get? k).map
          fun i => recordOf (Encode i (pass1Labels src) k) i.lineOf) := by
  constructor
  · intro src pre e ln hp
    have honly : errsOnlyLast (parseProgram src) = true := parse_errsOnlyLast _ _
    rw [hp] at honly
    have hpre := errsOnlyLast_prefix pre e ln honly
    have hc := collectLabels_err pre e ln [] hpre 0 []
    unfold assemble assembleInstrs
    rw [hp, hc]
  · intro src hval hlen k
    have hall : ∀ i ∈ parseProgram src, i.errOf = none := by
      intro i hi
      have := List.all_eq_true.1 hval i hi
      exact Option.isNone_iff_eq_none.1 this
    obtain ⟨ls, hls⟩ := collectLabels_ok (parseProgram src) hall 0 []
    have hpl : pass1Labels src = ls := by unfold pass1Labels; rw [hls]
    unfold assemble assembleInstrs
    rw [hls, hpl]
    simpa using encodeAll_get (parseProgram src) ls 0 (by simpa using hlen) k

/-- C8 witness: the truncated `add r1 r2` aborts with its parse
diagnostic and no words, while two undefined-label BEQ lines produce two
encode-error records from a single run. -/
theorem C8_error_propagation_witness :
    assemble parseErrSrc = [.error (.expectedNameOrNumber 1) 0] ∧
    (assemble twoEncErrSrc).get? 0 =
      some (.error (.cannotEncodeMissingLabel "foo".toList) 1) ∧
    (assemble twoEncErrSrc).get? 1 =
      some (.error (.cannotEncodeMissingLabel "bar".toList) 2) := by
  refine ⟨?_, ?_, ?_⟩
  · exact C8_error_propagation.1 parseErrSrc [] (.expectedNameOrNumber 1) 0 (by decide)
  · have h := C8_error_propagation.2 twoEncErrSrc (by decide) (by decide) 0
    rw [h]
    decide
  · have h := C8_error_propagation.2 twoEncErrSrc (by decide) (by decide) 1
    rw [h]
    decide

/-- C9 witness: the out-of-range immediate 200 resolves with a warning to
200, and the encoder keeps its low seven bits. -/
theorem C9_out_of_range_truncates_witness :
    ResolveImmediate [] ['2', '0', '0'] 7 = .ok (200, true) ∧
    Encode (.addi 1 none 1 0 ['2', '0', '0']) [] 0 = .ok 0x2448 := by
  constructor
  · have h := C9_out_of_range_truncates.1 [] ['2', '0', '0'] 7 200 (by decide) (by decide)
    rw [h]
    decide
  · have h := C9_out_of_range_truncates.2.1 1 none 1 0 ['2', '0', '0'] [] 0 200 (by decide)
    rw [h]
    decide

/-! ### Round-trip infrastructure (C7)

The disassembled line of an R-R-R or R-R-I7 word is lexed chunk by
chunk: a name chunk followed by a space, a space chunk, and a final
numeric or register chunk.  Each lemma peels one fuel unit. -/

/-- takeWhile runs through a prefix that satisfies the predicate. -/
theorem takeWhile_append_all {p : Char → Bool} (l1 l2 : List Char)
    (h : ∀ x ∈ l1, p x = true) :
    (l1 ++ l2).takeWhile p = l1 ++ l2.takeWhile p := by
  induction l1 with
  | nil => simp
  | cons a l ih =>
    have ha : p a = true := h a (by simp)
    simp only [List.cons_append, List.takeWhile_cons, ha, if_true]
    rw [ih fun x hx => h x (by simp [hx])]

/-- dropWhile skips a prefix that satisfies the predicate. -/
theorem dropWhile_append_all {p : Char → Bool} (l1 l2 : List Char)
    (h : ∀ x ∈ l1, p x = true) :
    (l1 ++ l2).dropWhile p = l2.dropWhile p := by
  induction l1 with
  | nil => simp
  | cons a l ih =>
    have ha : p a = true := h a (by simp)
    simp only [List.cons_append, List.dropWhile_cons, ha, if_true]
    exact ih fun x hx => h x (by simp [hx])

/-- The name rule consumes an identifier chunk followed by a space. -/
theorem lexStep_name_space (c : Char) (cs rest2 : List Char) (ln : Nat)
    (h1 : ¬c = '#') (h2 : isIdentStart c = true)
    (hcs : ∀ x ∈ cs, isIdentCont x = true) :
    lexStep (c :: (cs ++ (' ' :: rest2))) ln =
      some (some (.nameOrNumber (c :: cs) ln), ' ' :: rest2) := by
  unfold lexStep
  dsimp only
  rw [if_neg h1, if_pos h2]
  rw [takeWhile_append_all cs (' ' :: rest2) hcs,
    dropWhile_append_all cs (' ' :: rest2) hcs]
  have hsp : isIdentCont ' ' = false := by decide
  simp [List.takeWhile_cons, List.dropWhile_cons, hsp]

/-- Fuel-peeling form of the name-then-space chunk. -/
theorem lexLineAux_name_space (f ln : Nat) (c : Char) (cs rest2 : List Char)
    (h1 : ¬c = '#') (h2 : isIdentStart c = true)
    (hcs : ∀ x ∈ cs, isIdentCont x = true) :
    lexLineAux (f + 1) (c :: (cs ++ (' ' :: rest2))) ln =
      .nameOrNumber (c :: cs) ln :: lexLineAux f (' ' :: rest2) ln := by
  have hstep := lexStep_name_space c cs rest2 ln h1 h2 hcs
  show (match lexStep (c :: (cs ++ (' ' :: rest2))) ln with
    | some (some t, r) => t :: lexLineAux f r ln
    | some (none, r) => lexLineAux f r ln
    | none => [.invalid ln, .eol ln]) = _
  rw [hstep]

/-- Fuel-peeling form of the blank chunk. -/
theorem lexLineAux_space (f ln : Nat) (rest : List Char)
    (h : rest.dropWhile isBlankChar = rest) :
    lexLineAux (f + 1) (' ' :: rest) ln = lexLineAux f rest ln := by
  show (match lexStep (' ' :: rest) ln with
    | some (some t, r) => t :: lexLineAux f r ln
    | some (none, r) => lexLineAux f r ln
    | none => [.invalid ln, .eol ln]) = _
  rw [show lexStep (' ' :: rest) ln = some (none, rest.dropWhile isBlankChar) from rfl, h]

/-- Register digits are identifier characters. -/
theorem identCont_digitChar : ∀ r < 8, isIdentCont (digitChar r) = true := by decide

/-- A register digit is never a blank or a newline, and the trimmed
register text rN maps to N. -/
theorem digitChar_facts : ∀ r < 8,
    isBlankChar (digitChar r) = false ∧ (digitChar r != '\n') = true ∧
    regFromText ['r', digitChar r] = some r ∧
    renderReg r = ['r', digitChar r] := by decide

set_option maxRecDepth 4000 in
/-- The 128 canonical immediate texts: each parses back to its value,
truncates back to its field, is blank-free, newline-free and nonempty. -/
theorem immStr_facts : ∀ low7 < 128,
    parseGoInt (immStr low7) 64 = some (int16val (SignExtend7 low7)) ∧
    toU16 (int16val (SignExtend7 low7)) &&& 127 = low7 ∧
    (immStr low7).dropWhile isBlankChar = immStr low7 ∧
    (immStr low7).all (fun x => x != '\n') = true := by decide

set_option maxRecDepth 4000 in
/-- Lexing the final immediate chunk with the fuel left after the six
chunk peels of a 4-character-mnemonic R-R-I7 line. -/
theorem lexLineAux_immStr6 : ∀ low7 < 128,
    lexLineAux ((immStr low7).length + 6) (immStr low7) 1 =
      [.nameOrNumber (immStr low7) 1, .eol 1] := by decide

set_option maxRecDepth 4000 in
/-- The same with the fuel of a 3-character mnemonic. -/
theorem lexLineAux_immStr5 : ∀ low7 < 128,
    lexLineAux ((immStr low7).length + 5) (immStr low7) 1 =
      [.nameOrNumber (immStr low7) 1, .eol 1] := by decide

set_option maxRecDepth 4000 in
/-- The same with the fuel of a 2-character mnemonic. -/
theorem lexLineAux_immStr4 : ∀ low7 < 128,
    lexLineAux ((immStr low7).length + 4) (immStr low7) 1 =
      [.nameOrNumber (immStr low7) 1, .eol 1] := by decide

/-- Lexing the final register chunk of an R-R-R line (fuel 7 is what is
left of the 13 initial units after six peels). -/
theorem lexLineAux_lastReg : ∀ r < 8,
    lexLineAux 7 ('r' :: [digitChar r]) 1 =
      [.nameOrNumber ['r', digitChar r] 1, .eol 1] := by decide

/-- Field extraction from an R-R-I7-shaped word. -/
theorem rri_decode (op ra rb low7 : Nat) (hra : ra < 8) (hrb : rb < 8)
    (hlow : low7 < 128) (hop : op < 8) :
    (op * 8192 + ra * 1024 + rb * 128 + low7) >>> 13 = op ∧
    ((op * 8192 + ra * 1024 + rb * 128 + low7) >>> 10) &&& 7 = ra ∧
    ((op * 8192 + ra * 1024 + rb * 128 + low7) >>> 7) &&& 7 = rb ∧
    (op * 8192 + ra * 1024 + rb * 128 + low7) &&& 127 = low7 ∧
    (op * 8192 + ra * 1024 + rb * 128 + low7) &&& 7 = low7 % 8 ∧
    (op * 8192 + ra * 1024 + rb * 128 + low7) &&& 1023 = rb * 128 + low7 := by
  have e13 : ∀ x : Nat, x >>> 13 = x / 8192 := fun x => by
    rw [Nat.shiftRight_eq_div_pow]
  have e10 : ∀ x : Nat, x >>> 10 = x / 1024 := fun x => by
    rw [Nat.shiftRight_eq_div_pow]
  have e7 : ∀ x : Nat, x >>> 7 = x / 128 := fun x => by
    rw [Nat.shiftRight_eq_div_pow]
  have a7 : ∀ x : Nat, x &&& 7 = x % 8 := fun x => by
    have h := Nat.and_pow_two_sub_one_eq_mod x 3
    norm_num at h
    exact h
  have a127 : ∀ x : Nat, x &&& 127 = x % 128 := fun x => by
    have h := Nat.and_pow_two_sub_one_eq_mod x 7
    norm_num at h
    exact h
  have a1023 : ∀ x : Nat, x &&& 1023 = x % 1024 := fun x => by
    have h := Nat.and_pow_two_sub_one_eq_mod x 10
    norm_num at h
    exact h
  refine ⟨?_, ?_, ?_, ?_, ?_, ?_⟩ <;>
    simp only [e13, e10, e7, a7, a127, a1023] <;> omega

/-- The encoder's OR of shifted fields equals the arithmetic word. -/
theorem lor_fields (o ra rb c : Nat) (hra : ra < 8) (hrb : rb < 8) (hc : c < 128) :
    o <<< 13 ||| ra <<< 10 ||| rb <<< 7 ||| c =
      o * 8192 + ra * 1024 + rb * 128 + c := by
  have hsh : ∀ x k : Nat, x <<< k = 2 ^ k * x := fun x k => by
    rw [Nat.shiftLeft_eq]; ring
  rw [hsh o 13, hsh ra 10, hsh rb 7, Nat.lor_assoc, Nat.lor_assoc]
  rw [← Nat.mul_add_lt_is_or (show c < 2 ^ 7 by norm_num; omega) rb]
  rw [← Nat.mul_add_lt_is_or (show 2 ^ 7 * rb + c < 2 ^ 10 by norm_num; omega) ra]
  rw [← Nat.mul_add_lt_is_or
    (show 2 ^ 10 * ra + (2 ^ 7 * rb + c) < 2 ^ 13 by norm_num; omega) o]
  ring

/-- A list whose members all satisfy the predicate is its own takeWhile. -/
theorem takeWhile_all {p : Char → Bool} (l : List Char)
    (h : ∀ x ∈ l, p x = true) : l.takeWhile p = l := by
  induction l with
  | nil => rfl
  | cons a l2 ih =>
    have ha : p a = true := h a (by simp)
    simp only [List.takeWhile_cons, ha, if_true]
    rw [ih fun x hx => h x (by simp [hx])]

/-- A list whose members all satisfy the predicate drops to nothing. -/
theorem dropWhile_all {p : Char → Bool} (l : List Char)
    (h : ∀ x ∈ l, p x = true) : l.dropWhile p = [] := by
  induction l with
  | nil => rfl
  | cons a l2 ih =>
    have ha : p a = true := h a (by simp)
    simp only [List.dropWhile_cons, ha, if_true]
    exact ih fun x hx => h x (by simp [hx])

/-- A newline-free nonempty input is a single scanner line. -/
theorem splitLines_cons_all (c : Char) (rest : List Char)
    (hnl : ∀ x ∈ c :: rest, x ≠ '\n') : splitLines (c :: rest) = [c :: rest] := by
  unfold splitLines splitLinesAux
  dsimp only
  rw [takeWhile_all _ fun x hx => decide_eq_true (hnl x hx),
    dropWhile_all _ fun x hx => decide_eq_true (hnl x hx)]

/-- A chunk starting with the letter r survives the blank rule. -/
theorem dropWhile_blank_r (l : List Char) :
    ('r' :: l).dropWhile isBlankChar = 'r' :: l := by
  have h : isBlankChar 'r' = false := by decide
  simp only [List.dropWhile_cons, h]
  simp

/-- Lexing a whole R-R-I7 disassembly line, chunk by chunk: six fuel
units are consumed before the immediate chunk is reached. -/
theorem lex_rri_chunks (f : Nat) (c : Char) (cs : List Char) (ra rb low7 : Nat)
    (h1 : ¬c = '#') (h2 : isIdentStart c = true)
    (hcs : ∀ x ∈ cs, isIdentCont x = true)
    (hra : ra < 8) (hrb : rb < 8) (hlow : low7 < 128)
    (himm : lexLineAux f (immStr low7) 1 =
      [.nameOrNumber (immStr low7) 1, .eol 1]) :
    lexLineAux (f + 6)
      (c :: (cs ++ (' ' :: ('r' :: ([digitChar ra] ++
        (' ' :: ('r' :: ([digitChar rb] ++ (' ' :: immStr low7))))))))) 1 =
      [.nameOrNumber (c :: cs) 1, .nameOrNumber ['r', digitChar ra] 1,
       .nameOrNumber ['r', digitChar rb] 1, .nameOrNumber (immStr low7) 1,
       .eol 1] := by
  obtain ⟨hp, ht, hdw, hnl⟩ := immStr_facts low7 hlow
  have hca : ∀ x ∈ [digitChar ra], isIdentCont x = true := by
    intro x hx
    simp at hx
    subst hx
    exact identCont_digitChar ra hra
  have hcb : ∀ x ∈ [digitChar rb], isIdentCont x = true := by
    intro x hx
    simp at hx
    subst hx
    exact identCont_digitChar rb hrb
  have e5 : lexLineAux (f + 1) (' ' :: immStr low7) 1 =
      [.nameOrNumber (immStr low7) 1, .eol 1] :=
    (lexLineAux_space f 1 (immStr low7) hdw).trans himm
  have e4 : lexLineAux (f + 2)
      ('r' :: ([digitChar rb] ++ (' ' :: immStr low7))) 1 =
      [.nameOrNumber ['r', digitChar rb] 1, .nameOrNumber (immStr low7) 1, .eol 1] :=
    (lexLineAux_name_space (f + 1) 1 'r' [digitChar rb]
      (immStr low7) (by decide) (by decide) hcb).trans (by rw [e5])
  have e3 : lexLineAux (f + 3)
      (' ' :: ('r' :: ([digitChar rb] ++ (' ' :: immStr low7)))) 1 =
      [.nameOrNumber ['r', digitChar rb] 1, .nameOrNumber (immStr low7) 1, .eol 1] :=
    (lexLineAux_space (f + 2) 1 _ (dropWhile_blank_r _)).trans e4
  have e2 : lexLineAux (f + 4)
      ('r' :: ([digitChar ra] ++ (' ' :: ('r' :: ([digitChar rb] ++
        (' ' :: immStr low7)))))) 1 =
      [.nameOrNumber ['r', digitChar ra] 1, .nameOrNumber ['r', digitChar rb] 1,
       .nameOrNumber (immStr low7) 1, .eol 1] :=
    (lexLineAux_name_space (f + 3) 1 'r' [digitChar ra] _
      (by decide) (by decide) hca).trans (by rw [e3])
  have e1 : lexLineAux (f + 5)
      (' ' :: ('r' :: ([digitChar ra] ++ (' ' :: ('r' :: ([digitChar rb] ++
        (' ' :: immStr low7))))))) 1 =
      [.nameOrNumber ['r', digitChar ra] 1, .nameOrNumber ['r', digitChar rb] 1,
       .nameOrNumber (immStr low7) 1, .eol 1] :=
    (lexLineAux_space (f + 4) 1 _ (dropWhile_blank_r _)).trans e2
  exact (lexLineAux_name_space (f + 5) 1 c cs _ h1 h2 hcs).trans
    (by rw [e1])

/-- A small field is unchanged by the 3-bit mask. -/
theorem and7_small (x : Nat) (h : x < 8) : x &&& 7 = x := by
  have h3 := Nat.and_pow_two_sub_one_eq_mod x 3
  norm_num at h3
  rw [h3]
  exact Nat.mod_eq_of_lt h

/-- The disassembly of an ADDI word, in chunked form. -/
theorem dis_addi (ra rb low7 : Nat) (hra : ra < 8) (hrb : rb < 8) (hlow : low7 < 128) :
    Disassemble (8192 + ra * 1024 + rb * 128 + low7) =
      'a' :: ("ddi".toList ++ (' ' :: ('r' :: ([digitChar ra] ++
        (' ' :: ('r' :: ([digitChar rb] ++ (' ' :: immStr low7)))))))) := by
  have hdec := rri_decode 1 ra rb low7 hra hrb hlow (by norm_num)
  simp only [one_mul] at hdec
  obtain ⟨hop, hA, hB, h127, _, _⟩ := hdec
  have hrA := (digitChar_facts ra hra).2.2.2
  have hrB := (digitChar_facts rb hrb).2.2.2
  unfold Disassemble
  rw [hop, hA, hB, h127]
  norm_num [OpcodeADD, OpcodeADDI]
  rw [hrA, hrB]
  simp [immStr]

/-- The token stream of an ADDI disassembly line. -/
theorem lex_addi (ra rb low7 : Nat) (hra : ra < 8) (hrb : rb < 8) (hlow : low7 < 128) :
    lexProgram (Disassemble (8192 + ra * 1024 + rb * 128 + low7)) =
      [.nameOrNumber "addi".toList 1, .nameOrNumber ['r', digitChar ra] 1,
       .nameOrNumber ['r', digitChar rb] 1, .nameOrNumber (immStr low7) 1,
       .eol 1] := by
  rw [dis_addi ra rb low7 hra hrb hlow]
  have hnl : ∀ x ∈ 'a' :: ("ddi".toList ++ (' ' :: ('r' :: ([digitChar ra] ++
      (' ' :: ('r' :: ([digitChar rb] ++ (' ' :: immStr low7)))))))), x ≠ '\n' := by
    intro x hx
    obtain ⟨-, hb, -, -⟩ := immStr_facts low7 hlow
    have hda := (digitChar_facts ra hra).2.1
    have hdb := (digitChar_facts rb hrb).2.1
    obtain ⟨-, -, -, hnlimm⟩ := immStr_facts low7 hlow
    simp only [List.mem_cons, List.mem_append, List.mem_singleton] at hx
    rcases hx with rfl | hx
    · decide
    rcases hx with hx | hx
    · simp at hx
      rcases hx with rfl | rfl | rfl
      all_goals decide
    rcases hx with rfl | hx
    · decide
    rcases hx with rfl | hx
    · decide
    rcases hx with hx | hx
    · simp at hx
      subst hx
      simpa using hda
    rcases hx with rfl | hx
    · decide
    rcases hx with rfl | hx
    · decide
    rcases hx with hx | hx
    · simp at hx
      subst hx
      simpa using hdb
    rcases hx with rfl | hx
    · decide
    · have := List.all_eq_true.1 hnlimm x hx
      simpa using this
  unfold lexProgram
  rw [splitLines_cons_all _ _ hnl]
  show lexLine ('a' :: ("ddi".toList ++ (' ' :: ('r' :: ([digitChar ra] ++
    (' ' :: ('r' :: ([digitChar rb] ++ (' ' :: immStr low7))))))))) 1 ++ [] = _
  rw [List.append_nil]
  show lexLineAux (((immStr low7).length + 6) + 6) ('a' :: ("ddi".toList ++ (' ' :: ('r' ::
    ([digitChar ra] ++ (' ' :: ('r' :: ([digitChar rb] ++ (' ' :: immStr low7))))))))) 1 = _
  exact lex_rri_chunks ((immStr low7).length + 6) 'a' "ddi".toList ra rb low7 (by decide)
    (by decide) (by decide) hra hrb hlow (lexLineAux_immStr6 low7 hlow)

/-- A register token with a recognized text parses to its index. -/
theorem parseReg_ok (v : List Char) (ln : Nat) (rest : List LexerToken) (n : Nat)
    (h : regFromText v = some n) :
    MaybeSkipCommaThenParseRegister (.nameOrNumber v ln :: rest) = .ok (n, rest) := by
  simp only [MaybeSkipCommaThenParseRegister, nextTok]
  simp [h]

/-- `ParseADDI` on a clean four-token tail. -/
theorem ParseADDI_tokens (v1 v2 imm : List Char) (n1 n2 : Nat)
    (l1 l2 l3 l4 ln : Nat) (lab : Option (List Char)) (rest : List LexerToken)
    (h1 : regFromText v1 = some n1) (h2 : regFromText v2 = some n2) :
    ParseADDI (.nameOrNumber v1 l1 :: .nameOrNumber v2 l2 ::
        .nameOrNumber imm l3 :: .eol l4 :: rest) lab ln =
      ([.addi ln lab n1 n2 imm], rest) := by
  unfold ParseADDI
  rw [parseReg_ok v1 l1 _ n1 h1]
  dsimp only
  rw [parseReg_ok v2 l2 _ n2 h2]
  rfl

/-- `Encode` of an ADDI instruction with a numeric immediate. -/
theorem encode_addi (ln : Nat) (lab : Option (List Char)) (ra rb : Nat)
    (imm : List Char) (labels : Labels) (pc : Nat) (v : Int)
    (h : parseGoInt imm 64 = some v) :
    Encode (.addi ln lab ra rb imm) labels pc =
      .ok ((OpcodeADDI &&& 7) <<< 13 ||| (ra &&& 7) <<< 10 ||| (rb &&& 7) <<< 7 |||
        (toU16 v &&& 127)) := by
  simp [Encode, ResolveImmediate, h]

/-- Full word-level round trip for ADDI words. -/
theorem words_addi (ra rb low7 : Nat) (hra : ra < 8) (hrb : rb < 8)
    (hlow : low7 < 128) :
    asmWords (Disassemble (8192 + ra * 1024 + rb * 128 + low7)) =
      [8192 + ra * 1024 + rb * 128 + low7] := by
  obtain ⟨hp, ht, -, -⟩ := immStr_facts low7 hlow
  have hrega : regFromText ['r', digitChar ra] = some ra := (digitChar_facts ra hra).2.2.1
  have hregb : regFromText ['r', digitChar rb] = some rb := (digitChar_facts rb hrb).2.2.1
  have hlex := lex_addi ra rb low7 hra hrb hlow
  have hsingle : ParseSingleInstruction
      [.nameOrNumber "addi".toList 1, .nameOrNumber ['r', digitChar ra] 1,
       .nameOrNumber ['r', digitChar rb] 1, .nameOrNumber (immStr low7) 1, .eol 1] =
      some ([.addi 1 none ra rb (immStr low7)], []) := by
    show some (ParseADDI [.nameOrNumber ['r', digitChar ra] 1,
      .nameOrNumber ['r', digitChar rb] 1, .nameOrNumber (immStr low7) 1, .eol 1]
      none 1) = _
    rw [ParseADDI_tokens _ _ _ ra rb _ _ _ _ 1 none [] hrega hregb]
  have hparse : parseProgram (Disassemble (8192 + ra * 1024 + rb * 128 + low7)) =
      [.addi 1 none ra rb (immStr low7)] := by
    unfold parseProgram
    rw [hlex]
    show ParseAsyncAux 6
      [.nameOrNumber "addi".toList 1, .nameOrNumber ['r', digitChar ra] 1,
       .nameOrNumber ['r', digitChar rb] 1, .nameOrNumber (immStr low7) 1, .eol 1] = _
    unfold ParseAsyncAux
    rw [hsingle]
    rfl
  have henc : Encode (.addi 1 none ra rb (immStr low7)) [] 0 =
      .ok (8192 + ra * 1024 + rb * 128 + low7) := by
    rw [encode_addi 1 none ra rb (immStr low7) [] 0 _ hp]
    have hmask : ((OpcodeADDI &&& 7) : Nat) = 1 := by decide
    rw [hmask, and7_small ra hra, and7_small rb hrb, ht]
    rw [lor_fields 1 ra rb low7 hra hrb hlow]
  have hasm : assemble (Disassemble (8192 + ra * 1024 + rb * 128 + low7)) =
      [.word (8192 + ra * 1024 + rb * 128 + low7) 1] := by
    unfold assemble
    rw [hparse]
    rw [show assembleInstrs [Instr.addi 1 none ra rb (immStr low7)] =
      encodeAll [] [Instr.addi 1 none ra rb (immStr low7)] 0 from rfl]
    unfold encodeAll
    rw [henc]
    first
    | (norm_num; exact ⟨rfl, rfl⟩)
    | (norm_num; exact rfl)
    | norm_num
    | rfl
  unfold asmWords
  rw [hasm]
  rfl


/-- `ParseSW` on a clean four-token tail. -/
theorem ParseSW_tokens (v1 v2 imm : List Char) (n1 n2 : Nat)
    (l1 l2 l3 l4 ln : Nat) (lab : Option (List Char)) (rest : List LexerToken)
    (h1 : regFromText v1 = some n1) (h2 : regFromText v2 = some n2) :
    ParseSW (.nameOrNumber v1 l1 :: .nameOrNumber v2 l2 ::
        .nameOrNumber imm l3 :: .eol l4 :: rest) lab ln =
      ([.sw ln lab n1 n2 imm], rest) := by
  unfold ParseSW
  rw [parseReg_ok v1 l1 _ n1 h1]
  dsimp only
  rw [parseReg_ok v2 l2 _ n2 h2]
  rfl

/-- `Encode` of a SW instruction with a numeric immediate. -/
theorem encode_sw (ln : Nat) (lab : Option (List Char)) (ra rb : Nat)
    (imm : List Char) (labels : Labels) (pc : Nat) (v : Int)
    (h : parseGoInt imm 64 = some v) :
    Encode (.sw ln lab ra rb imm) labels pc =
      .ok ((OpcodeSW &&& 7) <<< 13 ||| (ra &&& 7) <<< 10 ||| (rb &&& 7) <<< 7 |||
        (toU16 v &&& 127)) := by
  simp [Encode, ResolveImmediate, h]

/-- The disassembly of a SW word, in chunked form. -/
theorem dis_sw (ra rb low7 : Nat) (hra : ra < 8) (hrb : rb < 8) (hlow : low7 < 128) :
    Disassemble (32768 + ra * 1024 + rb * 128 + low7) =
      's' :: ("w".toList ++ (' ' :: ('r' :: ([digitChar ra] ++
        (' ' :: ('r' :: ([digitChar rb] ++ (' ' :: immStr low7)))))))) := by
  have hdec := rri_decode 4 ra rb low7 hra hrb hlow (by norm_num)
  norm_num at hdec
  obtain ⟨hop, hA, hB, h127, -, -⟩ := hdec
  have hrA := (digitChar_facts ra hra).2.2.2
  have hrB := (digitChar_facts rb hrb).2.2.2
  unfold Disassemble
  rw [hop, hA, hB, h127]
  norm_num [OpcodeADD, OpcodeADDI, OpcodeNAND, OpcodeLUI, OpcodeSW, OpcodeLW,
    OpcodeBEQ, OpcodeJALR]
  rw [hrA, hrB]
  simp [immStr]

/-- The token stream of a SW disassembly line. -/
theorem lex_sw (ra rb low7 : Nat) (hra : ra < 8) (hrb : rb < 8) (hlow : low7 < 128) :
    lexProgram (Disassemble (32768 + ra * 1024 + rb * 128 + low7)) =
      [.nameOrNumber "sw".toList 1, .nameOrNumber ['r', digitChar ra] 1,
       .nameOrNumber ['r', digitChar rb] 1, .nameOrNumber (immStr low7) 1,
       .eol 1] := by
  rw [dis_sw ra rb low7 hra hrb hlow]
  have hnl : ∀ x ∈ 's' :: ("w".toList ++ (' ' :: ('r' :: ([digitChar ra] ++
      (' ' :: ('r' :: ([digitChar rb] ++ (' ' :: immStr low7)))))))), x ≠ '\n' := by
    intro x hx
    have hda := (digitChar_facts ra hra).2.1
    have hdb := (digitChar_facts rb hrb).2.1
    obtain ⟨-, -, -, hnlimm⟩ := immStr_facts low7 hlow
    simp only [List.mem_cons, List.mem_append, List.mem_singleton] at hx
    rcases hx with rfl | hx
    · decide
    rcases hx with hx | hx
    · simp at hx
      subst hx
      decide
    rcases hx with rfl | hx
    · decide
    rcases hx with rfl | hx
    · decide
    rcases hx with hx | hx
    · simp at hx
      subst hx
      simpa using hda
    rcases hx with rfl | hx
    · decide
    rcases hx with rfl | hx
    · decide
    rcases hx with hx | hx
    · simp at hx
      subst hx
      simpa using hdb
    rcases hx with rfl | hx
    · decide
    · have := List.all_eq_true.1 hnlimm x hx
      simpa using this
  unfold lexProgram
  rw [splitLines_cons_all _ _ hnl]
  show lexLine ('s' :: ("w".toList ++ (' ' :: ('r' :: ([digitChar ra] ++
    (' ' :: ('r' :: ([digitChar rb] ++ (' ' :: immStr low7))))))))) 1 ++ [] = _
  rw [List.append_nil]
  show lexLineAux (((immStr low7).length + 4) + 6) ('s' :: ("w".toList ++ (' ' :: ('r' ::
    ([digitChar ra] ++ (' ' :: ('r' :: ([digitChar rb] ++ (' ' :: immStr low7))))))))) 1 = _
  exact lex_rri_chunks ((immStr low7).length + 4) 's' "w".toList ra rb low7 (by decide)
    (by decide) (by decide) hra hrb hlow (lexLineAux_immStr4 low7 hlow)

/-- Full word-level round trip for SW words. -/
theorem words_sw (ra rb low7 : Nat) (hra : ra < 8) (hrb : rb < 8)
    (hlow : low7 < 128) :
    asmWords (Disassemble (32768 + ra * 1024 + rb * 128 + low7)) =
      [32768 + ra * 1024 + rb * 128 + low7] := by
  obtain ⟨hp, ht, -, -⟩ := immStr_facts low7 hlow
  have hrega : regFromText ['r', digitChar ra] = some ra := (digitChar_facts ra hra).2.2.1
  have hregb : regFromText ['r', digitChar rb] = some rb := (digitChar_facts rb hrb).2.2.1
  have hlex := lex_sw ra rb low7 hra hrb hlow
  have hsingle : ParseSingleInstruction
      [.nameOrNumber "sw".toList 1, .nameOrNumber ['r', digitChar ra] 1,
       .nameOrNumber ['r', digitChar rb] 1, .nameOrNumber (immStr low7) 1, .eol 1] =
      some ([.sw 1 none ra rb (immStr low7)], []) := by
    show some (ParseSW [.nameOrNumber ['r', digitChar ra] 1,
      .nameOrNumber ['r', digitChar rb] 1, .nameOrNumber (immStr low7) 1, .eol 1]
      none 1) = _
    rw [ParseSW_tokens _ _ _ ra rb _ _ _ _ 1 none [] hrega hregb]
  have hparse : parseProgram (Disassemble (32768 + ra * 1024 + rb * 128 + low7)) =
      [.sw 1 none ra rb (immStr low7)] := by
    unfold parseProgram
    rw [hlex]
    show ParseAsyncAux 6
      [.nameOrNumber "sw".toList 1, .nameOrNumber ['r', digitChar ra] 1,
       .nameOrNumber ['r', digitChar rb] 1, .nameOrNumber (immStr low7) 1, .eol 1] = _
    unfold ParseAsyncAux
    rw [hsingle]
    rfl
  have henc : Encode (.sw 1 none ra rb (immStr low7)) [] 0 =
      .ok (32768 + ra * 1024 + rb * 128 + low7) := by
    rw [encode_sw 1 none ra rb (immStr low7) [] 0 _ hp]
    have hmask : ((OpcodeSW &&& 7) : Nat) = 4 := by decide
    rw [hmask, and7_small ra hra, and7_small rb hrb, ht]
    rw [lor_fields 4 ra rb low7 hra hrb hlow]
  have hasm : assemble (Disassemble (32768 + ra * 1024 + rb * 128 + low7)) =
      [.word (32768 + ra * 1024 + rb * 128 + low7) 1] := by
    unfold assemble
    rw [hparse]
    rw [show assembleInstrs [Instr.sw 1 none ra rb (immStr low7)] =
      encodeAll [] [Instr.sw 1 none ra rb (immStr low7)] 0 from rfl]
    unfold encodeAll
    rw [henc]
    first
    | (norm_num; exact ⟨rfl, rfl⟩)
    | (norm_num; exact rfl)
    | norm_num
    | rfl
  unfold asmWords
  rw [hasm]
  rfl


/-- `ParseLW` on a clean four-token tail. -/
theorem ParseLW_tokens (v1 v2 imm : List Char) (n1 n2 : Nat)
    (l1 l2 l3 l4 ln : Nat) (lab : Option (List Char)) (rest : List LexerToken)
    (h1 : regFromText v1 = some n1) (h2 : regFromText v2 = some n2) :
    ParseLW (.nameOrNumber v1 l1 :: .nameOrNumber v2 l2 ::
        .nameOrNumber imm l3 :: .eol l4 :: rest) lab ln =
      ([.lw ln lab n1 n2 imm], rest) := by
  unfold ParseLW
  rw [parseReg_ok v1 l1 _ n1 h1]
  dsimp only
  rw [parseReg_ok v2 l2 _ n2 h2]
  rfl

/-- `Encode` of a LW instruction with a numeric immediate. -/
theorem encode_lw (ln : Nat) (lab : Option (List Char)) (ra rb : Nat)
    (imm : List Char) (labels : Labels) (pc : Nat) (v : Int)
    (h : parseGoInt imm 64 = some v) :
    Encode (.lw ln lab ra rb imm) labels pc =
      .ok ((OpcodeLW &&& 7) <<< 13 ||| (ra &&& 7) <<< 10 ||| (rb &&& 7) <<< 7 |||
        (toU16 v &&& 127)) := by
  simp [Encode, ResolveImmediate, h]

/-- The disassembly of a LW word, in chunked form. -/
theorem dis_lw (ra rb low7 : Nat) (hra : ra < 8) (hrb : rb < 8) (hlow : low7 < 128) :
    Disassemble (40960 + ra * 1024 + rb * 128 + low7) =
      'l' :: ("w".toList ++ (' ' :: ('r' :: ([digitChar ra] ++
        (' ' :: ('r' :: ([digitChar rb] ++ (' ' :: immStr low7)))))))) := by
  have hdec := rri_decode 5 ra rb low7 hra hrb hlow (by norm_num)
  norm_num at hdec
  obtain ⟨hop, hA, hB, h127, -, -⟩ := hdec
  have hrA := (digitChar_facts ra hra).2.2.2
  have hrB := (digitChar_facts rb hrb).2.2.2
  unfold Disassemble
  rw [hop, hA, hB, h127]
  norm_num [OpcodeADD, OpcodeADDI, OpcodeNAND, OpcodeLUI, OpcodeSW, OpcodeLW,
    OpcodeBEQ, OpcodeJALR]
  rw [hrA, hrB]
  simp [immStr]

/-- The token stream of a LW disassembly line. -/
theorem lex_lw (ra rb low7 : Nat) (hra : ra < 8) (hrb : rb < 8) (hlow : low7 < 128) :
    lexProgram (Disassemble (40960 + ra * 1024 + rb * 128 + low7)) =
      [.nameOrNumber "lw".toList 1, .nameOrNumber ['r', digitChar ra] 1,
       .nameOrNumber ['r', digitChar rb] 1, .nameOrNumber (immStr low7) 1,
       .eol 1] := by
  rw [dis_lw ra rb low7 hra hrb hlow]
  have hnl : ∀ x ∈ 'l' :: ("w".toList ++ (' ' :: ('r' :: ([digitChar ra] ++
      (' ' :: ('r' :: ([digitChar rb] ++ (' ' :: immStr low7)))))))), x ≠ '\n' := by
    intro x hx
    have hda := (digitChar_facts ra hra).2.1
    have hdb := (digitChar_facts rb hrb).2.1
    obtain ⟨-, -, -, hnlimm⟩ := immStr_facts low7 hlow
    simp only [List.mem_cons, List.mem_append, List.mem_singleton] at hx
    rcases hx with rfl | hx
    · decide
    rcases hx with hx | hx
    · simp at hx
      subst hx
      decide
    rcases hx with rfl | hx
    · decide
    rcases hx with rfl | hx
    · decide
    rcases hx with hx | hx
    · simp at hx
      subst hx
      simpa using hda
    rcases hx with rfl | hx
    · decide
    rcases hx with rfl | hx
    · decide
    rcases hx with hx | hx
    · simp at hx
      subst hx
      simpa using hdb
    rcases hx with rfl | hx
    · decide
    · have := List.all_eq_true.1 hnlimm x hx
      simpa using this
  unfold lexProgram
  rw [splitLines_cons_all _ _ hnl]
  show lexLine ('l' :: ("w".toList ++ (' ' :: ('r' :: ([digitChar ra] ++
    (' ' :: ('r' :: ([digitChar rb] ++ (' ' :: immStr low7))))))))) 1 ++ [] = _
  rw [List.append_nil]
  show lexLineAux (((immStr low7).length + 4) + 6) ('l' :: ("w".toList ++ (' ' :: ('r' ::
    ([digitChar ra] ++ (' ' :: ('r' :: ([digitChar rb] ++ (' ' :: immStr low7))))))))) 1 = _
  exact lex_rri_chunks ((immStr low7).length + 4) 'l' "w".toList ra rb low7 (by decide)
    (by decide) (by decide) hra hrb hlow (lexLineAux_immStr4 low7 hlow)

/-- Full word-level round trip for LW words. -/
theorem words_lw (ra rb low7 : Nat) (hra : ra < 8) (hrb : rb < 8)
    (hlow : low7 < 128) :
    asmWords (Disassemble (40960 + ra * 1024 + rb * 128 + low7)) =
      [40960 + ra * 1024 + rb * 128 + low7] := by
  obtain ⟨hp, ht, -, -⟩ := immStr_facts low7 hlow
  have hrega : regFromText ['r', digitChar ra] = some ra := (digitChar_facts ra hra).2.2.1
  have hregb : regFromText ['r', digitChar rb] = some rb := (digitChar_facts rb hrb).2.2.1
  have hlex := lex_lw ra rb low7 hra hrb hlow
  have hsingle : ParseSingleInstruction
      [.nameOrNumber "lw".toList 1, .nameOrNumber ['r', digitChar ra] 1,
       .nameOrNumber ['r', digitChar rb] 1, .nameOrNumber (immStr low7) 1, .eol 1] =
      some ([.lw 1 none ra rb (immStr low7)], []) := by
    show some (ParseLW [.nameOrNumber ['r', digitChar ra] 1,
      .nameOrNumber ['r', digitChar rb] 1, .nameOrNumber (immStr low7) 1, .eol 1]
      none 1) = _
    rw [ParseLW_tokens _ _ _ ra rb _ _ _ _ 1 none [] hrega hregb]
  have hparse : parseProgram (Disassemble (40960 + ra * 1024 + rb * 128 + low7)) =
      [.lw 1 none ra rb (immStr low7)] := by
    unfold parseProgram
    rw [hlex]
    show ParseAsyncAux 6
      [.nameOrNumber "lw".toList 1, .nameOrNumber ['r', digitChar ra] 1,
       .nameOrNumber ['r', digitChar rb] 1, .nameOrNumber (immStr low7) 1, .eol 1] = _
    unfold ParseAsyncAux
    rw [hsingle]
    rfl
  have henc : Encode (.lw 1 none ra rb (immStr low7)) [] 0 =
      .ok (40960 + ra * 1024 + rb * 128 + low7) := by
    rw [encode_lw 1 none ra rb (immStr low7) [] 0 _ hp]
    have hmask : ((OpcodeLW &&& 7) : Nat) = 5 := by decide
    rw [hmask, and7_small ra hra, and7_small rb hrb, ht]
    rw [lor_fields 5 ra rb low7 hra hrb hlow]
  have hasm : assemble (Disassemble (40960 + ra * 1024 + rb * 128 + low7)) =
      [.word (40960 + ra * 1024 + rb * 128 + low7) 1] := by
    unfold assemble
    rw [hparse]
    rw [show assembleInstrs [Instr.lw 1 none ra rb (immStr low7)] =
      encodeAll [] [Instr.lw 1 none ra rb (immStr low7)] 0 from rfl]
    unfold encodeAll
    rw [henc]
    first
    | (norm_num; exact ⟨rfl, rfl⟩)
    | (norm_num; exact rfl)
    | norm_num
    | rfl
  unfold asmWords
  rw [hasm]
  rfl


/-- `ParseBEQ` on a clean four-token tail. -/
theorem ParseBEQ_tokens (v1 v2 imm : List Char) (n1 n2 : Nat)
    (l1 l2 l3 l4 ln : Nat) (lab : Option (List Char)) (rest : List LexerToken)
    (h1 : regFromText v1 = some n1) (h2 : regFromText v2 = some n2) :
    ParseBEQ (.nameOrNumber v1 l1 :: .nameOrNumber v2 l2 ::
        .nameOrNumber imm l3 :: .eol l4 :: rest) lab ln =
      ([.beq ln lab n1 n2 imm], rest) := by
  unfold ParseBEQ
  rw [parseReg_ok v1 l1 _ n1 h1]
  dsimp only
  rw [parseReg_ok v2 l2 _ n2 h2]
  rfl

/-- `Encode` of a BEQ instruction with a numeric immediate. -/
theorem encode_beq (ln : Nat) (lab : Option (List Char)) (ra rb : Nat)
    (imm : List Char) (labels : Labels) (pc : Nat) (v : Int)
    (h : parseGoInt imm 64 = some v) :
    Encode (.beq ln lab ra rb imm) labels pc =
      .ok ((OpcodeBEQ &&& 7) <<< 13 ||| (ra &&& 7) <<< 10 ||| (rb &&& 7) <<< 7 |||
        (toU16 v &&& 127)) := by
  simp [Encode, ResolveImmediate, h]

/-- The disassembly of a BEQ word, in chunked form. -/
theorem dis_beq (ra rb low7 : Nat) (hra : ra < 8) (hrb : rb < 8) (hlow : low7 < 128) :
    Disassemble (49152 + ra * 1024 + rb * 128 + low7) =
      'b' :: ("eq".toList ++ (' ' :: ('r' :: ([digitChar ra] ++
        (' ' :: ('r' :: ([digitChar rb] ++ (' ' :: immStr low7)))))))) := by
  have hdec := rri_decode 6 ra rb low7 hra hrb hlow (by norm_num)
  norm_num at hdec
  obtain ⟨hop, hA, hB, h127, -, -⟩ := hdec
  have hrA := (digitChar_facts ra hra).2.2.2
  have hrB := (digitChar_facts rb hrb).2.2.2
  unfold Disassemble
  rw [hop, hA, hB, h127]
  norm_num [OpcodeADD, OpcodeADDI, OpcodeNAND, OpcodeLUI, OpcodeSW, OpcodeLW,
    OpcodeBEQ, OpcodeJALR]
  rw [hrA, hrB]
  simp [immStr]

/-- The token stream of a BEQ disassembly line. -/
theorem lex_beq (ra rb low7 : Nat) (hra : ra < 8) (hrb : rb < 8) (hlow : low7 < 128) :
    lexProgram (Disassemble (49152 + ra * 1024 + rb * 128 + low7)) =
      [.nameOrNumber "beq".toList 1, .nameOrNumber ['r', digitChar ra] 1,
       .nameOrNumber ['r', digitChar rb] 1, .nameOrNumber (immStr low7) 1,
       .eol 1] := by
  rw [dis_beq ra rb low7 hra hrb hlow]
  have hnl : ∀ x ∈ 'b' :: ("eq".toList ++ (' ' :: ('r' :: ([digitChar ra] ++
      (' ' :: ('r' :: ([digitChar rb] ++ (' ' :: immStr low7)))))))), x ≠ '\n' := by
    intro x hx
    have hda := (digitChar_facts ra hra).2.1
    have hdb := (digitChar_facts rb hrb).2.1
    obtain ⟨-, -, -, hnlimm⟩ := immStr_facts low7 hlow
    simp only [List.mem_cons, List.mem_append, List.mem_singleton] at hx
    rcases hx with rfl | hx
    · decide
    rcases hx with hx | hx
    · simp at hx
      rcases hx with rfl | rfl
      all_goals decide
    rcases hx with rfl | hx
    · decide
    rcases hx with rfl | hx
    · decide
    rcases hx with hx | hx
    · simp at hx
      subst hx
      simpa using hda
    rcases hx with rfl | hx
    · decide
    rcases hx with rfl | hx
    · decide
    rcases hx with hx | hx
    · simp at hx
      subst hx
      simpa using hdb
    rcases hx with rfl | hx
    · decide
    · have := List.all_eq_true.1 hnlimm x hx
      simpa using this
  unfold lexProgram
  rw [splitLines_cons_all _ _ hnl]
  show lexLine ('b' :: ("eq".toList ++ (' ' :: ('r' :: ([digitChar ra] ++
    (' ' :: ('r' :: ([digitChar rb] ++ (' ' :: immStr low7))))))))) 1 ++ [] = _
  rw [List.append_nil]
  show lexLineAux (((immStr low7).length + 5) + 6) ('b' :: ("eq".toList ++ (' ' :: ('r' ::
    ([digitChar ra] ++ (' ' :: ('r' :: ([digitChar rb] ++ (' ' :: immStr low7))))))))) 1 = _
  exact lex_rri_chunks ((immStr low7).length + 5) 'b' "eq".toList ra rb low7 (by decide)
    (by decide) (by decide) hra hrb hlow (lexLineAux_immStr5 low7 hlow)

/-- Full word-level round trip for BEQ words. -/
theorem words_beq (ra rb low7 : Nat) (hra : ra < 8) (hrb : rb < 8)
    (hlow : low7 < 128) :
    asmWords (Disassemble (49152 + ra * 1024 + rb * 128 + low7)) =
      [49152 + ra * 1024 + rb * 128 + low7] := by
  obtain ⟨hp, ht, -, -⟩ := immStr_facts low7 hlow
  have hrega : regFromText ['r', digitChar ra] = some ra := (digitChar_facts ra hra).2.2.1
  have hregb : regFromText ['r', digitChar rb] = some rb := (digitChar_facts rb hrb).2.2.1
  have hlex := lex_beq ra rb low7 hra hrb hlow
  have hsingle : ParseSingleInstruction
      [.nameOrNumber "beq".toList 1, .nameOrNumber ['r', digitChar ra] 1,
       .nameOrNumber ['r', digitChar rb] 1, .nameOrNumber (immStr low7) 1, .eol 1] =
      some ([.beq 1 none ra rb (immStr low7)], []) := by
    show some (ParseBEQ [.nameOrNumber ['r', digitChar ra] 1,
      .nameOrNumber ['r', digitChar rb] 1, .nameOrNumber (immStr low7) 1, .eol 1]
      none 1) = _
    rw [ParseBEQ_tokens _ _ _ ra rb _ _ _ _ 1 none [] hrega hregb]
  have hparse : parseProgram (Disassemble (49152 + ra * 1024 + rb * 128 + low7)) =
      [.beq 1 none ra rb (immStr low7)] := by
    unfold parseProgram
    rw [hlex]
    show ParseAsyncAux 6
      [.nameOrNumber "beq".toList 1, .nameOrNumber ['r', digitChar ra] 1,
       .nameOrNumber ['r', digitChar rb] 1, .nameOrNumber (immStr low7) 1, .eol 1] = _
    unfold ParseAsyncAux
    rw [hsingle]
    rfl
  have henc : Encode (.beq 1 none ra rb (immStr low7)) [] 0 =
      .ok (49152 + ra * 1024 + rb * 128 + low7) := by
    rw [encode_beq 1 none ra rb (immStr low7) [] 0 _ hp]
    have hmask : ((OpcodeBEQ &&& 7) : Nat) = 6 := by decide
    rw [hmask, and7_small ra hra, and7_small rb hrb, ht]
    rw [lor_fields 6 ra rb low7 hra hrb hlow]
  have hasm : assemble (Disassemble (49152 + ra * 1024 + rb * 128 + low7)) =
      [.word (49152 + ra * 1024 + rb * 128 + low7) 1] := by
    unfold assemble
    rw [hparse]
    rw [show assembleInstrs [Instr.beq 1 none ra rb (immStr low7)] =
      encodeAll [] [Instr.beq 1 none ra rb (immStr low7)] 0 from rfl]
    unfold encodeAll
    rw [henc]
    first
    | (norm_num; exact ⟨rfl, rfl⟩)
    | (norm_num; exact rfl)
    | norm_num
    | rfl
  unfold asmWords
  rw [hasm]
  rfl



set_option maxRecDepth 4000 in
/-- Lexing the final register chunk of an R-R-R line, at the fuel left by
a 3-character mnemonic. -/
theorem lexLineAux_lastReg7 : ∀ r < 8,
    lexLineAux 7 ('r' :: [digitChar r]) 1 =
      [.nameOrNumber ['r', digitChar r] 1, .eol 1] := by decide

set_option maxRecDepth 4000 in
/-- The same with one more fuel unit, for a 4-character mnemonic. -/
theorem lexLineAux_lastReg8 : ∀ r < 8,
    lexLineAux 8 ('r' :: [digitChar r]) 1 =
      [.nameOrNumber ['r', digitChar r] 1, .eol 1] := by decide

/-- Lexing a whole R-R-R disassembly line, chunk by chunk. -/
theorem lex_rrr_chunks (f : Nat) (c : Char) (cs : List Char) (ra rb rc : Nat)
    (h1 : ¬c = '#') (h2 : isIdentStart c = true)
    (hcs : ∀ x ∈ cs, isIdentCont x = true)
    (hra : ra < 8) (hrb : rb < 8) (hrc : rc < 8)
    (hlast : lexLineAux f ('r' :: [digitChar rc]) 1 =
      [.nameOrNumber ['r', digitChar rc] 1, .eol 1]) :
    lexLineAux (f + 6)
      (c :: (cs ++ (' ' :: ('r' :: ([digitChar ra] ++
        (' ' :: ('r' :: ([digitChar rb] ++ (' ' :: ('r' :: [digitChar rc])))))))))) 1 =
      [.nameOrNumber (c :: cs) 1, .nameOrNumber ['r', digitChar ra] 1,
       .nameOrNumber ['r', digitChar rb] 1, .nameOrNumber ['r', digitChar rc] 1,
       .eol 1] := by
  have hca : ∀ x ∈ [digitChar ra], isIdentCont x = true := by
    intro x hx
    simp at hx
    subst hx
    exact identCont_digitChar ra hra
  have hcb : ∀ x ∈ [digitChar rb], isIdentCont x = true := by
    intro x hx
    simp at hx
    subst hx
    exact identCont_digitChar rb hrb
  have e5 : lexLineAux (f + 1) (' ' :: ('r' :: [digitChar rc])) 1 =
      [.nameOrNumber ['r', digitChar rc] 1, .eol 1] :=
    (lexLineAux_space f 1 _ (dropWhile_blank_r _)).trans hlast
  have e4 : lexLineAux (f + 2)
      ('r' :: ([digitChar rb] ++ (' ' :: ('r' :: [digitChar rc])))) 1 =
      [.nameOrNumber ['r', digitChar rb] 1, .nameOrNumber ['r', digitChar rc] 1,
       .eol 1] :=
    (lexLineAux_name_space (f + 1) 1 'r' [digitChar rb] _
      (by decide) (by decide) hcb).trans (by rw [e5])
  have e3 : lexLineAux (f + 3)
      (' ' :: ('r' :: ([digitChar rb] ++ (' ' :: ('r' :: [digitChar rc]))))) 1 =
      [.nameOrNumber ['r', digitChar rb] 1, .nameOrNumber ['r', digitChar rc] 1,
       .eol 1] :=
    (lexLineAux_space (f + 2) 1 _ (dropWhile_blank_r _)).trans e4
  have e2 : lexLineAux (f + 4)
      ('r' :: ([digitChar ra] ++ (' ' :: ('r' :: ([digitChar rb] ++
        (' ' :: ('r' :: [digitChar rc]))))))) 1 =
      [.nameOrNumber ['r', digitChar ra] 1, .nameOrNumber ['r', digitChar rb] 1,
       .nameOrNumber ['r', digitChar rc] 1, .eol 1] :=
    (lexLineAux_name_space (f + 3) 1 'r' [digitChar ra] _
      (by decide) (by decide) hca).trans (by rw [e3])
  have e1 : lexLineAux (f + 5)
      (' ' :: ('r' :: ([digitChar ra] ++ (' ' :: ('r' :: ([digitChar rb] ++
        (' ' :: ('r' :: [digitChar rc])))))))) 1 =
      [.nameOrNumber ['r', digitChar ra] 1, .nameOrNumber ['r', digitChar rb] 1,
       .nameOrNumber ['r', digitChar rc] 1, .eol 1] :=
    (lexLineAux_space (f + 4) 1 _ (dropWhile_blank_r _)).trans e2
  exact (lexLineAux_name_space (f + 5) 1 c cs _ h1 h2 hcs).trans (by rw [e1])


/-- `ParseADD` on a clean four-token tail. -/
theorem ParseADD_tokens (v1 v2 v3 : List Char) (n1 n2 n3 : Nat)
    (l1 l2 l3 l4 ln : Nat) (lab : Option (List Char)) (rest : List LexerToken)
    (h1 : regFromText v1 = some n1) (h2 : regFromText v2 = some n2)
    (h3 : regFromText v3 = some n3) :
    ParseADD (.nameOrNumber v1 l1 :: .nameOrNumber v2 l2 ::
        .nameOrNumber v3 l3 :: .eol l4 :: rest) lab ln =
      ([.add ln lab n1 n2 n3], rest) := by
  unfold ParseADD
  rw [parseReg_ok v1 l1 _ n1 h1]
  dsimp only
  rw [parseReg_ok v2 l2 _ n2 h2]
  dsimp only
  rw [parseReg_ok v3 l3 _ n3 h3]
  rfl

/-- The disassembly of a ADD word, in chunked form. -/
theorem dis_add (ra rb rc : Nat) (hra : ra < 8) (hrb : rb < 8) (hrc : rc < 8) :
    Disassemble (ra * 1024 + rb * 128 + rc) =
      'a' :: ("dd".toList ++ (' ' :: ('r' :: ([digitChar ra] ++
        (' ' :: ('r' :: ([digitChar rb] ++ (' ' :: ('r' :: [digitChar rc]))))))))) := by
  have hdec := rri_decode 0 ra rb rc hra hrb (by omega) (by norm_num)
  norm_num at hdec
  obtain ⟨hop, hA, hB, -, hC, -⟩ := hdec
  rw [Nat.mod_eq_of_lt hrc] at hC
  have hrA := (digitChar_facts ra hra).2.2.2
  have hrB := (digitChar_facts rb hrb).2.2.2
  have hrC := (digitChar_facts rc hrc).2.2.2
  unfold Disassemble
  rw [hop, hA, hB, hC]
  norm_num [OpcodeADD, OpcodeADDI, OpcodeNAND, OpcodeLUI, OpcodeSW, OpcodeLW,
    OpcodeBEQ, OpcodeJALR]
  rw [hrA, hrB, hrC]
  simp

/-- The token stream of a ADD disassembly line. -/
theorem lex_add (ra rb rc : Nat) (hra : ra < 8) (hrb : rb < 8) (hrc : rc < 8) :
    lexProgram (Disassemble (ra * 1024 + rb * 128 + rc)) =
      [.nameOrNumber "add".toList 1, .nameOrNumber ['r', digitChar ra] 1,
       .nameOrNumber ['r', digitChar rb] 1, .nameOrNumber ['r', digitChar rc] 1,
       .eol 1] := by
  rw [dis_add ra rb rc hra hrb hrc]
  have hnl : ∀ x ∈ 'a' :: ("dd".toList ++ (' ' :: ('r' :: ([digitChar ra] ++
      (' ' :: ('r' :: ([digitChar rb] ++ (' ' :: ('r' :: [digitChar rc]))))))))),
      x ≠ '\n' := by
    intro x hx
    have hda := (digitChar_facts ra hra).2.1
    have hdb := (digitChar_facts rb hrb).2.1
    have hdc := (digitChar_facts rc hrc).2.1
    simp only [List.mem_cons, List.mem_append, List.mem_singleton] at hx
    rcases hx with rfl | hx
    · decide
    rcases hx with hx | hx
    · simp at hx
      rcases hx with rfl | rfl
      all_goals decide
    rcases hx with rfl | hx
    · decide
    rcases hx with rfl | hx
    · decide
    rcases hx with hx | hx
    · simp at hx
      subst hx
      simpa using hda
    rcases hx with rfl | hx
    · decide
    rcases hx with rfl | hx
    · decide
    rcases hx with hx | hx
    · simp at hx
      subst hx
      simpa using hdb
    rcases hx with rfl | hx
    · decide
    rcases hx with rfl | hx
    · decide
    · simp at hx
      subst hx
      simpa using hdc
  unfold lexProgram
  rw [splitLines_cons_all _ _ hnl]
  show lexLine ('a' :: ("dd".toList ++ (' ' :: ('r' :: ([digitChar ra] ++
    (' ' :: ('r' :: ([digitChar rb] ++ (' ' :: ('r' :: [digitChar rc])))))))))) 1 ++ [] = _
  rw [List.append_nil]
  show lexLineAux (7 + 6) ('a' :: ("dd".toList ++ (' ' :: ('r' ::
    ([digitChar ra] ++ (' ' :: ('r' :: ([digitChar rb] ++
      (' ' :: ('r' :: [digitChar rc])))))))))) 1 = _
  exact lex_rrr_chunks 7 'a' "dd".toList ra rb rc (by decide)
    (by decide) (by decide) hra hrb hrc (lexLineAux_lastReg7 rc hrc)

/-- Full word-level round trip for ADD words with zero bits 6..3. -/
theorem words_add (ra rb rc : Nat) (hra : ra < 8) (hrb : rb < 8)
    (hrc : rc < 8) :
    asmWords (Disassemble (ra * 1024 + rb * 128 + rc)) =
      [ra * 1024 + rb * 128 + rc] := by
  have hrega : regFromText ['r', digitChar ra] = some ra := (digitChar_facts ra hra).2.2.1
  have hregb : regFromText ['r', digitChar rb] = some rb := (digitChar_facts rb hrb).2.2.1
  have hregc : regFromText ['r', digitChar rc] = some rc := (digitChar_facts rc hrc).2.2.1
  have hlex := lex_add ra rb rc hra hrb hrc
  have hsingle : ParseSingleInstruction
      [.nameOrNumber "add".toList 1, .nameOrNumber ['r', digitChar ra] 1,
       .nameOrNumber ['r', digitChar rb] 1, .nameOrNumber ['r', digitChar rc] 1, .eol 1] =
      some ([.add 1 none ra rb rc], []) := by
    show some (ParseADD [.nameOrNumber ['r', digitChar ra] 1,
      .nameOrNumber ['r', digitChar rb] 1, .nameOrNumber ['r', digitChar rc] 1, .eol 1]
      none 1) = _
    rw [ParseADD_tokens _ _ _ ra rb rc _ _ _ _ 1 none [] hrega hregb hregc]
  have hparse : parseProgram (Disassemble (ra * 1024 + rb * 128 + rc)) =
      [.add 1 none ra rb rc] := by
    unfold parseProgram
    rw [hlex]
    show ParseAsyncAux 6
      [.nameOrNumber "add".toList 1, .nameOrNumber ['r', digitChar ra] 1,
       .nameOrNumber ['r', digitChar rb] 1, .nameOrNumber ['r', digitChar rc] 1, .eol 1] = _
    unfold ParseAsyncAux
    rw [hsingle]
    rfl
  have henc : Encode (.add 1 none ra rb rc) [] 0 =
      .ok (ra * 1024 + rb * 128 + rc) := by
    show Except.ok ((OpcodeADD &&& 7) <<< 13 ||| (ra &&& 7) <<< 10 |||
      (rb &&& 7) <<< 7 ||| (rc &&& 7)) = _
    have hmask : ((OpcodeADD &&& 7) : Nat) = 0 := by decide
    rw [hmask, and7_small ra hra, and7_small rb hrb, and7_small rc hrc]
    rw [lor_fields 0 ra rb rc hra hrb (by omega)]
    all_goals norm_num
  have hasm : assemble (Disassemble (ra * 1024 + rb * 128 + rc)) =
      [.word (ra * 1024 + rb * 128 + rc) 1] := by
    unfold assemble
    rw [hparse]
    rw [show assembleInstrs [Instr.add 1 none ra rb rc] =
      encodeAll [] [Instr.add 1 none ra rb rc] 0 from rfl]
    unfold encodeAll
    rw [henc]
    first
    | (norm_num; exact ⟨rfl, rfl⟩)
    | (norm_num; exact rfl)
    | norm_num
    | rfl
  unfold asmWords
  rw [hasm]
  rfl


/-- `ParseNAND` on a clean four-token tail. -/
theorem ParseNAND_tokens (v1 v2 v3 : List Char) (n1 n2 n3 : Nat)
    (l1 l2 l3 l4 ln : Nat) (lab : Option (List Char)) (rest : List LexerToken)
    (h1 : regFromText v1 = some n1) (h2 : regFromText v2 = some n2)
    (h3 : regFromText v3 = some n3) :
    ParseNAND (.nameOrNumber v1 l1 :: .nameOrNumber v2 l2 ::
        .nameOrNumber v3 l3 :: .eol l4 :: rest) lab ln =
      ([.nand ln lab n1 n2 n3], rest) := by
  unfold ParseNAND
  rw [parseReg_ok v1 l1 _ n1 h1]
  dsimp only
  rw [parseReg_ok v2 l2 _ n2 h2]
  dsimp only
  rw [parseReg_ok v3 l3 _ n3 h3]
  rfl

/-- The disassembly of a NAND word, in chunked form. -/
theorem dis_nand (ra rb rc : Nat) (hra : ra < 8) (hrb : rb < 8) (hrc : rc < 8) :
    Disassemble (16384 + ra * 1024 + rb * 128 + rc) =
      'n' :: ("and".toList ++ (' ' :: ('r' :: ([digitChar ra] ++
        (' ' :: ('r' :: ([digitChar rb] ++ (' ' :: ('r' :: [digitChar rc]))))))))) := by
  have hdec := rri_decode 2 ra rb rc hra hrb (by omega) (by norm_num)
  norm_num at hdec
  obtain ⟨hop, hA, hB, -, hC, -⟩ := hdec
  rw [Nat.mod_eq_of_lt hrc] at hC
  have hrA := (digitChar_facts ra hra).2.2.2
  have hrB := (digitChar_facts rb hrb).2.2.2
  have hrC := (digitChar_facts rc hrc).2.2.2
  unfold Disassemble
  rw [hop, hA, hB, hC]
  norm_num [OpcodeADD, OpcodeADDI, OpcodeNAND, OpcodeLUI, OpcodeSW, OpcodeLW,
    OpcodeBEQ, OpcodeJALR]
  rw [hrA, hrB, hrC]
  simp

/-- The token stream of a NAND disassembly line. -/
theorem lex_nand (ra rb rc : Nat) (hra : ra < 8) (hrb : rb < 8) (hrc : rc < 8) :
    lexProgram (Disassemble (16384 + ra * 1024 + rb * 128 + rc)) =
      [.nameOrNumber "nand".toList 1, .nameOrNumber ['r', digitChar ra] 1,
       .nameOrNumber ['r', digitChar rb] 1, .nameOrNumber ['r', digitChar rc] 1,
       .eol 1] := by
  rw [dis_nand ra rb rc hra hrb hrc]
  have hnl : ∀ x ∈ 'n' :: ("and".toList ++ (' ' :: ('r' :: ([digitChar ra] ++
      (' ' :: ('r' :: ([digitChar rb] ++ (' ' :: ('r' :: [digitChar rc]))))))))),
      x ≠ '\n' := by
    intro x hx
    have hda := (digitChar_facts ra hra).2.1
    have hdb := (digitChar_facts rb hrb).2.1
    have hdc := (digitChar_facts rc hrc).2.1
    simp only [List.mem_cons, List.mem_append, List.mem_singleton] at hx
    rcases hx with rfl | hx
    · decide
    rcases hx with hx | hx
    · simp at hx
      rcases hx with rfl | rfl | rfl
      all_goals decide
    rcases hx with rfl | hx
    · decide
    rcases hx with rfl | hx
    · decide
    rcases hx with hx | hx
    · simp at hx
      subst hx
      simpa using hda
    rcases hx with rfl | hx
    · decide
    rcases hx with rfl | hx
    · decide
    rcases hx with hx | hx
    · simp at hx
      subst hx
      simpa using hdb
    rcases hx with rfl | hx
    · decide
    rcases hx with rfl | hx
    · decide
    · simp at hx
      subst hx
      simpa using hdc
  unfold lexProgram
  rw [splitLines_cons_all _ _ hnl]
  show lexLine ('n' :: ("and".toList ++ (' ' :: ('r' :: ([digitChar ra] ++
    (' ' :: ('r' :: ([digitChar rb] ++ (' ' :: ('r' :: [digitChar rc])))))))))) 1 ++ [] = _
  rw [List.append_nil]
  show lexLineAux (8 + 6) ('n' :: ("and".toList ++ (' ' :: ('r' ::
    ([digitChar ra] ++ (' ' :: ('r' :: ([digitChar rb] ++
      (' ' :: ('r' :: [digitChar rc])))))))))) 1 = _
  exact lex_rrr_chunks 8 'n' "and".toList ra rb rc (by decide)
    (by decide) (by decide) hra hrb hrc (lexLineAux_lastReg8 rc hrc)

/-- Full word-level round trip for NAND words with zero bits 6..3. -/
theorem words_nand (ra rb rc : Nat) (hra : ra < 8) (hrb : rb < 8)
    (hrc : rc < 8) :
    asmWords (Disassemble (16384 + ra * 1024 + rb * 128 + rc)) =
      [16384 + ra * 1024 + rb * 128 + rc] := by
  have hrega : regFromText ['r', digitChar ra] = some ra := (digitChar_facts ra hra).2.2.1
  have hregb : regFromText ['r', digitChar rb] = some rb := (digitChar_facts rb hrb).2.2.1
  have hregc : regFromText ['r', digitChar rc] = some rc := (digitChar_facts rc hrc).2.2.1
  have hlex := lex_nand ra rb rc hra hrb hrc
  have hsingle : ParseSingleInstruction
      [.nameOrNumber "nand".toList 1, .nameOrNumber ['r', digitChar ra] 1,
       .nameOrNumber ['r', digitChar rb] 1, .nameOrNumber ['r', digitChar rc] 1, .eol 1] =
      some ([.nand 1 none ra rb rc], []) := by
    show some (ParseNAND [.nameOrNumber ['r', digitChar ra] 1,
      .nameOrNumber ['r', digitChar rb] 1, .nameOrNumber ['r', digitChar rc] 1, .eol 1]
      none 1) = _
    rw [ParseNAND_tokens _ _ _ ra rb rc _ _ _ _ 1 none [] hrega hregb hregc]
  have hparse : parseProgram (Disassemble (16384 + ra * 1024 + rb * 128 + rc)) =
      [.nand 1 none ra rb rc] := by
    unfold parseProgram
    rw [hlex]
    show ParseAsyncAux 6
      [.nameOrNumber "nand".toList 1, .nameOrNumber ['r', digitChar ra] 1,
       .nameOrNumber ['r', digitChar rb] 1, .nameOrNumber ['r', digitChar rc] 1, .eol 1] = _
    unfold ParseAsyncAux
    rw [hsingle]
    rfl
  have henc : Encode (.nand 1 none ra rb rc) [] 0 =
      .ok (16384 + ra * 1024 + rb * 128 + rc) := by
    show Except.ok ((OpcodeNAND &&& 7) <<< 13 ||| (ra &&& 7) <<< 10 |||
      (rb &&& 7) <<< 7 ||| (rc &&& 7)) = _
    have hmask : ((OpcodeNAND &&& 7) : Nat) = 2 := by decide
    rw [hmask, and7_small ra hra, and7_small rb hrb, and7_small rc hrc]
    rw [lor_fields 2 ra rb rc hra hrb (by omega)]
    all_goals norm_num
  have hasm : assemble (Disassemble (16384 + ra * 1024 + rb * 128 + rc)) =
      [.word (16384 + ra * 1024 + rb * 128 + rc) 1] := by
    unfold assemble
    rw [hparse]
    rw [show assembleInstrs [Instr.nand 1 none ra rb rc] =
      encodeAll [] [Instr.nand 1 none ra rb rc] 0 from rfl]
    unfold encodeAll
    rw [henc]
    first
    | (norm_num; exact ⟨rfl, rfl⟩)
    | (norm_num; exact rfl)
    | norm_num
    | rfl
  unfold asmWords
  rw [hasm]
  rfl


set_option maxRecDepth 10000 in
/-- Full word-level round trip for the eight LUI words whose immediate
field is zero (the only LUI words that survive the re-encode shift). -/
theorem words_lui : ∀ ra < 8,
    asmWords (Disassemble (24576 + ra * 1024)) = [24576 + ra * 1024] := by decide

set_option maxRecDepth 10000 in
/-- C7: the word-level round trip `asmWords (Disassemble w) = [w]` fails on
words the assembler itself produces: `lui r1 4660` assembles to 25672
(0x6448), whose disassembly `lui r1 72` re-encodes to 25601 (the raw imm10
field is shifted again); `halt` assembles to 57457 (0xE071), whose
disassembly `jalr r0 r0 -15` has three operands while ParseJALR accepts
only two, so re-assembly yields no words at all. -/
theorem C7_roundtrip_counterexample :
    asmWords luiSrc = [25672] ∧ asmWords (Disassemble 25672) = [25601] ∧
    asmWords haltSrc = [57457] ∧ asmWords (Disassemble 57457) = [] := by decide

/-- C7 (amended): the word-level round trip holds exactly for the register
and plain-immediate words - ADD/NAND words with zero bits 6..3, ADDI, SW,
LW and BEQ words with arbitrary register and 7-bit immediate fields, and
LUI words with zero imm10 field - but fails for LUI words with a nonzero
immediate field (the disassembler prints the raw imm10, which the encoder
shifts right by 6 again) and for JALR words (the disassembler prints three
operands, ParseJALR accepts two), both of which the assembler produces
from ordinary `lui`/`halt` lines. -/
theorem C7_roundtrip_amended :
    (∀ ra rb rc : Nat, ra < 8 → rb < 8 → rc < 8 →
      asmWords (Disassemble (ra * 1024 + rb * 128 + rc)) =
        [ra * 1024 + rb * 128 + rc] ∧
      asmWords (Disassemble (16384 + ra * 1024 + rb * 128 + rc)) =
        [16384 + ra * 1024 + rb * 128 + rc]) ∧
    (∀ op ra rb low7 : Nat, (op = 1 ∨ op = 4 ∨ op = 5 ∨ op = 6) →
      ra < 8 → rb < 8 → low7 < 128 →
      asmWords (Disassemble (op * 8192 + ra * 1024 + rb * 128 + low7)) =
        [op * 8192 + ra * 1024 + rb * 128 + low7]) ∧
    (∀ ra < 8, asmWords (Disassemble (24576 + ra * 1024)) = [24576 + ra * 1024]) ∧
    asmWords (Disassemble 25672) ≠ [25672] ∧
    asmWords (Disassemble 57457) ≠ [57457] := by
  refine ⟨?_, ?_, words_lui, by decide, by decide⟩
  · intro ra rb rc hra hrb hrc
    exact ⟨words_add ra rb rc hra hrb hrc, words_nand ra rb rc hra hrb hrc⟩
  · intro op ra rb low7 hop hra hrb hlow
    rcases hop with rfl | rfl | rfl | rfl
    · show asmWords (Disassemble (8192 + ra * 1024 + rb * 128 + low7)) =
        [8192 + ra * 1024 + rb * 128 + low7]
      exact words_addi ra rb low7 hra hrb hlow
    · show asmWords (Disassemble (32768 + ra * 1024 + rb * 128 + low7)) =
        [32768 + ra * 1024 + rb * 128 + low7]
      exact words_sw ra rb low7 hra hrb hlow
    · show asmWords (Disassemble (40960 + ra * 1024 + rb * 128 + low7)) =
        [40960 + ra * 1024 + rb * 128 + low7]
      exact words_lw ra rb low7 hra hrb hlow
    · show asmWords (Disassemble (49152 + ra * 1024 + rb * 128 + low7)) =
        [49152 + ra * 1024 + rb * 128 + low7]
      exact words_beq ra rb low7 hra hrb hlow

/-- C7 (amended) at the concrete ADDI word 9544 = `addi r1 r2 72`. -/
theorem C7_roundtrip_amended_witness :
    ((1 : Nat) = 1 ∨ (1 : Nat) = 4 ∨ (1 : Nat) = 5 ∨ (1 : Nat) = 6) ∧
    (1 : Nat) < 8 ∧ (2 : Nat) < 8 ∧ (72 : Nat) < 128 ∧
    asmWords (Disassemble (1 * 8192 + 1 * 1024 + 2 * 128 + 72)) =
      [1 * 8192 + 1 * 1024 + 2 * 128 + 72] :=
  ⟨Or.inl rfl, by decide, by decide, by decide,
    C7_roundtrip_amended.2.1 1 1 2 72 (Or.inl rfl) (by decide) (by decide)
      (by decide)⟩

end RiSC16
